import Mathlib

/-!
# cooking-game: the kitchen simulation engine

A shallow embedding of `items.go`, `tiles.go`, `player.go` and the order ledger of
`main.go`, followed by theorems about it.

Modelling conventions

* Go pointers to items and tiles are replaced by values; a method that mutates its
  receiver (or its argument) returns the new value next to its result.
* The package-level variables `tiles`, `players` and `orders` are explicit arguments.
* `float64` values are the finite ones, represented by the rational they denote; every
  arithmetic operation rounds its exact result to the nearest float64 (ties to even),
  each operation on its own. NaN, infinities and overflow are outside the model.
* `int` (`exit.numDirty`) is the 64-bit two's-complement integer of the Go compiler on
  64-bit platforms: an integer, wrapped by `wrapInt64` into [-2^63, 2^63) where it is
  incremented.
* Sprites (`img`) and the `draw` methods are rendering and are left out.
-/

namespace CookingGame

/-! ## float64 arithmetic -/

/-- The finite values of Go's `float64`, as the rational numbers they denote. -/
abbrev float64 := ℚ

/-- The rational `2 ^ e` for an integer exponent. -/
def pow2 (e : ℤ) : ℚ :=
  if 0 ≤ e then ((2 ^ e.toNat : ℕ) : ℚ) else 1 / ((2 ^ (-e).toNat : ℕ) : ℚ)

/-- Halve `n` until it is below 2, at most `fuel` times, and count the halvings. -/
def log2Aux : ℕ → ℕ → ℕ
  | 0, _ => 0
  | fuel + 1, n => if n < 2 then 0 else log2Aux fuel (n / 2) + 1

/-- For `n ≥ 1`, the natural number `k` with `2 ^ k ≤ n < 2 ^ (k + 1)`. -/
def log2 (n : ℕ) : ℕ := log2Aux n n

/-- For `q > 0`, the integer `k` with `2 ^ k ≤ q < 2 ^ (k + 1)`: it is the difference of
the logarithms of numerator and denominator, or one less. -/
def ilog2 (q : ℚ) : ℤ :=
  let k : ℤ := (log2 q.num.natAbs : ℤ) - (log2 q.den : ℤ)
  if pow2 k ≤ q then k else k - 1

/-- Exponent of the unit in the last place of the float64 grid around `q`: 53 significant
bits for normal numbers, the fixed spacing `2 ^ (-1074)` in the subnormal range. -/
def ulpExp (q : ℚ) : ℤ := max (ilog2 |q| - 52) (-1074)

/-- Nearest integer, ties to the even one. -/
def roundHalfEven (s : ℚ) : ℤ :=
  let f := ⌊s⌋
  let r := s - f
  if r < 1 / 2 then f
  else if 1 / 2 < r then f + 1
  else if f % 2 = 0 then f else f + 1

/-- IEEE 754 round-to-nearest-even of an exact result onto the float64 grid. -/
def round64 (q : ℚ) : float64 :=
  if q = 0 then 0 else (roundHalfEven (q / pow2 (ulpExp q)) : ℚ) * pow2 (ulpExp q)

/-- Float64 `a + b`. -/
def fadd (a b : float64) : float64 := round64 (a + b)

/-- Float64 `a - b`. -/
def fsub (a b : float64) : float64 := round64 (a - b)

/-- Float64 `a * b`. -/
def fmul (a b : float64) : float64 := round64 (a * b)

/-- Float64 `a / b` (for `b = 0` Go yields NaN or an infinity; the model yields 0). -/
def fdiv (a b : float64) : float64 := round64 (a / b)

/-- Go's `math.Abs`. -/
def fabs (a : float64) : float64 := |a|

/-- Bits `k - 1` down to 0 of `⌊√n⌋`, given in `r` the bits above them. -/
def isqrtAux (n : ℕ) : ℕ → ℕ → ℕ
  | 0, r => r
  | k + 1, r =>
    if (r + 2 ^ k) * (r + 2 ^ k) ≤ n then isqrtAux n k (r + 2 ^ k) else isqrtAux n k r

/-- The integer square root `⌊√n⌋`. -/
def isqrt (n : ℕ) : ℕ := isqrtAux n (log2 n / 2 + 1) 0

/-- Go's `math.Sqrt` on a finite argument: the float64 nearest to the real square root
(for a negative argument Go yields NaN; the model yields 0). With `e` the exponent of the
unit in the last place of the root, `t` is the root truncated to one extra bit. -/
def fsqrt (q : float64) : float64 :=
  if q ≤ 0 then 0
  else
    let e : ℤ := ilog2 q / 2 - 52
    let scaled : ℚ := q * pow2 (2 * (1 - e))
    let t : ℕ := isqrt ⌊scaled⌋.toNat
    let h : ℕ :=
      if t % 2 = 0 then t / 2
      else if ((t * t : ℕ) : ℚ) = scaled then (if (t / 2) % 2 = 0 then t / 2 else t / 2 + 1)
      else t / 2 + 1
    (h : ℚ) * pow2 e

/-! ## items.go -/

/-- The six implementations of the `item` interface. A clean plate carries its
`contents map[string]item` as a list of key/value entries. -/
inductive item where
  | cleanPlate (contents : List (String × item))
  | dirtyPlate
  | lettuce
  | choppedLettuce
  | tomato
  | choppedTomato

mutual
/-- Decision procedure for equality of items. -/
def item.decEq : (a b : item) → Decidable (a = b)
  | .cleanPlate c, .cleanPlate d =>
    match item.decEqContents c d with
    | isTrue h => isTrue (by rw [h])
    | isFalse h => isFalse (fun h' => h (item.cleanPlate.inj h'))
  | .dirtyPlate, .dirtyPlate => isTrue rfl
  | .lettuce, .lettuce => isTrue rfl
  | .choppedLettuce, .choppedLettuce => isTrue rfl
  | .tomato, .tomato => isTrue rfl
  | .choppedTomato, .choppedTomato => isTrue rfl
  | .cleanPlate _, .dirtyPlate => isFalse (fun h => item.noConfusion h)
  | .cleanPlate _, .lettuce => isFalse (fun h => item.noConfusion h)
  | .cleanPlate _, .choppedLettuce => isFalse (fun h => item.noConfusion h)
  | .cleanPlate _, .tomato => isFalse (fun h => item.noConfusion h)
  | .cleanPlate _, .choppedTomato => isFalse (fun h => item.noConfusion h)
  | .dirtyPlate, .cleanPlate _ => isFalse (fun h => item.noConfusion h)
  | .dirtyPlate, .lettuce => isFalse (fun h => item.noConfusion h)
  | .dirtyPlate, .choppedLettuce => isFalse (fun h => item.noConfusion h)
  | .dirtyPlate, .tomato => isFalse (fun h => item.noConfusion h)
  | .dirtyPlate, .choppedTomato => isFalse (fun h => item.noConfusion h)
  | .lettuce, .cleanPlate _ => isFalse (fun h => item.noConfusion h)
  | .lettuce, .dirtyPlate => isFalse (fun h => item.noConfusion h)
  | .lettuce, .choppedLettuce => isFalse (fun h => item.noConfusion h)
  | .lettuce, .tomato => isFalse (fun h => item.noConfusion h)
  | .lettuce, .choppedTomato => isFalse (fun h => item.noConfusion h)
  | .choppedLettuce, .cleanPlate _ => isFalse (fun h => item.noConfusion h)
  | .choppedLettuce, .dirtyPlate => isFalse (fun h => item.noConfusion h)
  | .choppedLettuce, .lettuce => isFalse (fun h => item.noConfusion h)
  | .choppedLettuce, .tomato => isFalse (fun h => item.noConfusion h)
  | .choppedLettuce, .choppedTomato => isFalse (fun h => item.noConfusion h)
  | .tomato, .cleanPlate _ => isFalse (fun h => item.noConfusion h)
  | .tomato, .dirtyPlate => isFalse (fun h => item.noConfusion h)
  | .tomato, .lettuce => isFalse (fun h => item.noConfusion h)
  | .tomato, .choppedLettuce => isFalse (fun h => item.noConfusion h)
  | .tomato, .choppedTomato => isFalse (fun h => item.noConfusion h)
  | .choppedTomato, .cleanPlate _ => isFalse (fun h => item.noConfusion h)
  | .choppedTomato, .dirtyPlate => isFalse (fun h => item.noConfusion h)
  | .choppedTomato, .lettuce => isFalse (fun h => item.noConfusion h)
  | .choppedTomato, .choppedLettuce => isFalse (fun h => item.noConfusion h)
  | .choppedTomato, .tomato => isFalse (fun h => item.noConfusion h)
/-- Decision procedure for equality of contents maps. -/
def item.decEqContents : (c d : List (String × item)) → Decidable (c = d)
  | [], [] => isTrue rfl
  | [], _ :: _ => isFalse (fun h => List.noConfusion h)
  | _ :: _, [] => isFalse (fun h => List.noConfusion h)
  | (k, v) :: c, (k', v') :: d =>
    if hk : k = k' then
      match item.decEq v v' with
      | isTrue hv =>
        match item.decEqContents c d with
        | isTrue hc => isTrue (by rw [hk, hv, hc])
        | isFalse hc => isFalse (fun h => hc (List.cons.inj h).2)
      | isFalse hv => isFalse (fun h => hv (Prod.mk.inj (List.cons.inj h).1).2)
    else isFalse (fun h => hk (Prod.mk.inj (List.cons.inj h).1).1)
end

instance : DecidableEq item := item.decEq


/-- Go `_, ok := m[k]`. -/
def mapHas {β : Type} (m : List (String × β)) (k : String) : Bool :=
  m.any (fun kv => kv.1 == k)

/-- Go `m[k] = v`: overwrite the entry of `k` if there is one, else add one. -/
def mapSet {β : Type} (m : List (String × β)) (k : String) (v : β) : List (String × β) :=
  if mapHas m k then m.map (fun kv => if kv.1 == k then (k, v) else kv) else m ++ [(k, v)]

namespace item

/-- The `name()` method. -/
def name : item → String
  | cleanPlate _ => "cleanPlate"
  | dirtyPlate => "dirtyPlate"
  | lettuce => "lettuce"
  | choppedLettuce => "choppedLettuce"
  | tomato => "tomato"
  | choppedTomato => "choppedTomato"

/-- The `canCombine()` method. -/
def canCombine : item → Bool
  | cleanPlate _ => false
  | dirtyPlate => false
  | lettuce => false
  | choppedLettuce => true
  | tomato => false
  | choppedTomato => true

/-- The `combine(other)` method: `cleanPlate.combine`, and `baseItem.combine` for the rest.
Returns the result and the receiver after the call. -/
def combine (p other : item) : Bool × item :=
  match p with
  | cleanPlate contents =>
    if !other.canCombine then (false, p)
    else if contents.length ≥ 3 then (false, p)
    else if mapHas contents other.name then (false, p)
    else (true, cleanPlate (mapSet contents other.name other))
  | _ => (false, p)

/-- The `canCut()` method. -/
def canCut : item → Bool
  | lettuce => true
  | tomato => true
  | _ => false

/-- The `completeCut()` method; `none` is Go's `nil`. -/
def completeCut : item → Option item
  | lettuce => some choppedLettuce
  | tomato => some choppedTomato
  | _ => none

/-- The `canWash()` method. -/
def canWash : item → Bool
  | dirtyPlate => true
  | _ => false

end item

/-- Body of the loop of `newCleanPlate`: combine the items one by one into the plate,
`none` when a `combine` fails (the Go code panics). -/
def newCleanPlate.loop : item → List item → Option item
  | cp, [] => some cp
  | cp, i :: rest =>
    match cp.combine i with
    | (true, cp') => newCleanPlate.loop cp' rest
    | (false, _) => none

/-- The constructor `newCleanPlate(items)`; `none` stands for the panic. -/
def newCleanPlate (items : List item) : Option item :=
  newCleanPlate.loop (item.cleanPlate []) items

/-- The `completeWash()` method; `none` is Go's `nil`. For a dirty plate it is
`newCleanPlate(nil)`, whose loop body never runs. -/
def item.completeWash : item → Option item
  | item.dirtyPlate => newCleanPlate []
  | _ => none

/-! ## tiles.go -/

/-- The struct `baseTile` (position only). -/
structure baseTile where
  x : float64
  y : float64
  deriving DecidableEq

/-- The method `baseTile.getPosition`. -/
def baseTile.getPosition (bt : baseTile) : float64 × float64 :=
  (fadd bt.x 8, fadd bt.y 8)

/-- The struct `wall`. -/
structure wall extends baseTile
  deriving DecidableEq

/-- The method `wall.pickUp`. -/
def wall.pickUp (_w : wall) : Option item := none

/-- The method `wall.drop`. -/
def wall.drop (_w : wall) (_i : item) : Bool := false

/-- The struct `counter`. -/
structure counter extends baseTile where
  contents : Option item
  deriving DecidableEq

/-- The method `counter.pickUp`: the returned item and the counter after the call. -/
def counter.pickUp (c : counter) : Option item × counter :=
  match c.contents with
  | some i => (some i, { c with contents := none })
  | none => (none, c)

/-- The method `counter.drop`: the result and the counter after the call. -/
def counter.drop (c : counter) (i : item) : Bool × counter :=
  match c.contents with
  | some held => ((held.combine i).1, { c with contents := some (held.combine i).2 })
  | none => (true, { c with contents := some i })

/-- The struct `tomatoSpawner`. -/
structure tomatoSpawner extends baseTile
  deriving DecidableEq

/-- The method `tomatoSpawner.pickUp`. -/
def tomatoSpawner.pickUp (_ts : tomatoSpawner) : Option item := some item.tomato

/-- The method `tomatoSpawner.drop`. -/
def tomatoSpawner.drop (_ts : tomatoSpawner) (_i : item) : Bool := false

/-- The struct `lettuceSpawner`. -/
structure lettuceSpawner extends baseTile
  deriving DecidableEq

/-- The method `lettuceSpawner.pickUp`. -/
def lettuceSpawner.pickUp (_ts : lettuceSpawner) : Option item := some item.lettuce

/-- The method `lettuceSpawner.drop`. -/
def lettuceSpawner.drop (_ts : lettuceSpawner) (_i : item) : Bool := false

/-- Wrap-around of Go's 64-bit `int`: the representative of `n` modulo 2^64 in
[-2^63, 2^63). -/
def wrapInt64 (n : ℤ) : ℤ :=
  (n + 9223372036854775808) % 18446744073709551616 - 9223372036854775808

/-- The struct `exit`. -/
structure exit extends baseTile where
  numDirty : ℤ
  deriving DecidableEq

/-- The constructor `newExit`. -/
def newExit (x y : float64) : exit := { x := x, y := y, numDirty := 0 }

/-- The method `exit.pickUp`: the returned item and the exit after the call. The
decrement `e.numDirty--` is reached with `numDirty > 0` only, where it cannot wrap. -/
def exit.pickUp (e : exit) : Option item × exit :=
  if e.numDirty > 0 then (some item.dirtyPlate, { e with numDirty := e.numDirty - 1 })
  else (none, e)

/-- The `sort.Slice` call of `exit.drop`: the items in ascending order of `name()`. -/
def sortByName (l : List item) : List item :=
  l.insertionSort (fun a b => a.name ≤ b.name)

/-- The values of a plate's `contents` map, sorted by name (`plateContents` in
`exit.drop`). -/
def plateContents (contents : List (String × item)) : List item :=
  sortByName (contents.map Prod.snd)

/-- The body of the loop over `orders` in `exit.drop`: the length test, then the
position-by-position comparison of names (the flag `matching`). -/
def orderMatches (order plate : List item) : Bool :=
  if order.length != plate.length then false
  else (order.zip plate).all (fun op => op.1.name == op.2.name)

/-- The method `exit.drop`: the result, the exit after the call and the global `orders`
after the call. `orders.take oi ++ orders.drop (oi + 1)` is
`append(orders[:oi], orders[oi+1:]...)`; the increment `e.numDirty++` wraps. -/
def exit.drop (e : exit) (i : item) (orders : List (List item)) :
    Bool × exit × List (List item) :=
  match i with
  | item.cleanPlate contents =>
    match orders.findIdx? (fun order => orderMatches order (plateContents contents)) with
    | some oi => (true, { e with numDirty := wrapInt64 (e.numDirty + 1) },
        orders.take oi ++ orders.drop (oi + 1))
    | none => (false, e, orders)
  | _ => (false, e, orders)

/-- The struct `trash`. -/
structure trash extends baseTile
  deriving DecidableEq

/-- The method `trash.pickUp`. -/
def trash.pickUp (_t : trash) : Option item := none

/-- The method `trash.drop`: the result and the dropped item after the call (a clean
plate is emptied through its pointer). -/
def trash.drop (_t : trash) (i : item) : Bool × item :=
  match i with
  | item.cleanPlate _ => (false, item.cleanPlate [])
  | _ => if i.name = "dirtyPlate" then (false, i) else (true, i)

/-- The per-call increment `1.0 / 3.0 / 60.0` of `work()`: a constant expression,
evaluated exactly and then converted to float64. -/
def workIncrement : float64 := round64 (1 / 3 / 60)

/-- The struct `choppingBoard`. -/
structure choppingBoard extends baseTile where
  contents : Option item
  progress : float64
  deriving DecidableEq

/-- The constructor `newChoppingBoard`. -/
def newChoppingBoard (x y progress : float64) (contents : Option item) : choppingBoard :=
  { x := x, y := y, contents := contents, progress := progress }

/-- The method `choppingBoard.pickUp`. -/
def choppingBoard.pickUp (cb : choppingBoard) : Option item × choppingBoard :=
  match cb.contents with
  | some i => (some i, { cb with contents := none, progress := 0 })
  | none => (none, cb)

/-- The method `choppingBoard.drop`. -/
def choppingBoard.drop (cb : choppingBoard) (i : item) : Bool × choppingBoard :=
  if !i.canCut then (false, cb)
  else
    match cb.contents with
    | some held => ((held.combine i).1, { cb with contents := some (held.combine i).2 })
    | none => (true, { cb with contents := some i })

/-- The method `choppingBoard.work`. -/
def choppingBoard.work (cb : choppingBoard) : choppingBoard :=
  match cb.contents with
  | none => cb
  | some held =>
    if !held.canCut then cb
    else if fadd cb.progress workIncrement ≥ 1 then
      { cb with progress := 0, contents := held.completeCut }
    else { cb with progress := fadd cb.progress workIncrement }

/-- The struct `sink`. -/
structure sink extends baseTile where
  contents : Option item
  progress : float64
  deriving DecidableEq

/-- The constructor `newSink`. -/
def newSink (x y progress : float64) (contents : Option item) : sink :=
  { x := x, y := y, contents := contents, progress := progress }

/-- The method `sink.pickUp`. -/
def sink.pickUp (s : sink) : Option item × sink :=
  match s.contents with
  | some i => (some i, { s with contents := none, progress := 0 })
  | none => (none, s)

/-- The method `sink.drop`. -/
def sink.drop (s : sink) (i : item) : Bool × sink :=
  if !i.canWash then (false, s)
  else
    match s.contents with
    | some held => ((held.combine i).1, { s with contents := some (held.combine i).2 })
    | none => (true, { s with contents := some i })

/-- The method `sink.work`. -/
def sink.work (s : sink) : sink :=
  match s.contents with
  | none => s
  | some held =>
    if !held.canWash then s
    else if fadd s.progress workIncrement ≥ 1 then
      { s with progress := 0, contents := held.completeWash }
    else { s with progress := fadd s.progress workIncrement }

/-- The interface `tile`: its eight implementations. -/
inductive tile where
  | wall (t : wall)
  | counter (t : counter)
  | tomatoSpawner (t : tomatoSpawner)
  | lettuceSpawner (t : lettuceSpawner)
  | exit (t : exit)
  | trash (t : trash)
  | choppingBoard (t : choppingBoard)
  | sink (t : sink)
  deriving DecidableEq

/-- Everything a `drop(i)` call can touch, after the call: its result, the station, the
dropped item and the global `orders`. -/
structure dropResult where
  ok : Bool
  station : tile
  dropped : item
  orders : List (List item)
  deriving DecidableEq

/-- Interface dispatch of `getPosition()`. -/
def tile.getPosition : tile → float64 × float64
  | .wall t => t.getPosition
  | .counter t => t.getPosition
  | .tomatoSpawner t => t.getPosition
  | .lettuceSpawner t => t.getPosition
  | .exit t => t.getPosition
  | .trash t => t.getPosition
  | .choppingBoard t => t.getPosition
  | .sink t => t.getPosition

/-- Interface dispatch of `pickUp()`. -/
def tile.pickUp : tile → Option item × tile
  | .wall t => (t.pickUp, .wall t)
  | .counter t => (t.pickUp.1, .counter t.pickUp.2)
  | .tomatoSpawner t => (t.pickUp, .tomatoSpawner t)
  | .lettuceSpawner t => (t.pickUp, .lettuceSpawner t)
  | .exit t => (t.pickUp.1, .exit t.pickUp.2)
  | .trash t => (t.pickUp, .trash t)
  | .choppingBoard t => (t.pickUp.1, .choppingBoard t.pickUp.2)
  | .sink t => (t.pickUp.1, .sink t.pickUp.2)

/-- Interface dispatch of `drop(i)`. -/
def tile.drop (t : tile) (i : item) (orders : List (List item)) : dropResult :=
  match t with
  | .wall w => ⟨w.drop i, .wall w, i, orders⟩
  | .counter c => ⟨(c.drop i).1, .counter (c.drop i).2, i, orders⟩
  | .tomatoSpawner s => ⟨s.drop i, .tomatoSpawner s, i, orders⟩
  | .lettuceSpawner s => ⟨s.drop i, .lettuceSpawner s, i, orders⟩
  | .exit e => ⟨(e.drop i orders).1, .exit (e.drop i orders).2.1, i, (e.drop i orders).2.2⟩
  | .trash tr => ⟨(tr.drop i).1, .trash tr, (tr.drop i).2, orders⟩
  | .choppingBoard cb => ⟨(cb.drop i).1, .choppingBoard (cb.drop i).2, i, orders⟩
  | .sink s => ⟨(s.drop i).1, .sink (s.drop i).2, i, orders⟩

/-- Interface dispatch of `work()` (`baseTile.work` does nothing). -/
def tile.work : tile → tile
  | .choppingBoard t => .choppingBoard t.work
  | .sink t => .sink t.work
  | t => t

/-! ## player.go -/

/-- The constant `speed = 100.0 / 60.0`, converted to float64. -/
def speed : float64 := round64 (100 / 60)

/-- The constant `maxWorkDist`. -/
def maxWorkDist : float64 := 20

/-- The function `getDistance`. -/
def getDistance (x1 y1 x2 y2 : float64) : float64 :=
  fsqrt (fadd (fmul (fsub x2 x1) (fsub x2 x1)) (fmul (fsub y2 y1) (fsub y2 y1)))

/-- The loop of `getNearbyTile` over the rest of `tiles`, from index `idx` on, with the
current `closestDist` and `closest`. A tile pointer is an index into `tiles` together
with the tile found there. -/
def getNearbyTile.loop (x y : float64) :
    List tile → ℕ → float64 → Option (ℕ × tile) → Option (ℕ × tile)
  | [], _, _, closest => closest
  | t :: rest, idx, closestDist, closest =>
    if getDistance x y t.getPosition.1 t.getPosition.2 < closestDist then
      getNearbyTile.loop x y rest (idx + 1)
        (getDistance x y t.getPosition.1 t.getPosition.2) (some (idx, t))
    else getNearbyTile.loop x y rest (idx + 1) closestDist closest

/-- The function `getNearbyTile`, with the global `tiles` as an argument. -/
def getNearbyTile (tiles : List tile) (x y maxDist : float64) : Option (ℕ × tile) :=
  getNearbyTile.loop x y tiles 0 maxDist none

/-- The struct `input`. -/
structure input where
  moveHorizontal : float64
  moveVertical : float64
  interact : Bool
  startWorking : Bool
  deriving DecidableEq

/-- The struct `player`; its controller delivers the `input` of each tick. -/
structure player where
  x : float64
  y : float64
  holding : Option item
  working : Bool
  deriving DecidableEq

/-- The locals `hori` and `vert` of `player.work` (a division 0/0 is overwritten by the
test that follows it). -/
def direction (inp : input) : float64 × float64 :=
  if inp.moveHorizontal = 0 ∧ inp.moveVertical = 0 then (0, 0)
  else
    (fdiv inp.moveHorizontal (fadd (fabs inp.moveHorizontal) (fabs inp.moveVertical)),
     fdiv inp.moveVertical (fadd (fabs inp.moveHorizontal) (fabs inp.moveVertical)))

/-- The displacement `(speed * hori, speed * vert)` that `player.work` adds to the
position. -/
def stepOf (inp : input) : float64 × float64 :=
  (fmul speed (direction inp).1, fmul speed (direction inp).2)

/-- One iteration of the loop over `tiles` in `player.work`, on the position `(p.x, p.y)`
with the displacement `d`. -/
def collideTile (d : float64 × float64) (pos : float64 × float64) (t : tile) :
    float64 × float64 :=
  let dist := getDistance (fadd pos.1 8) (fadd pos.2 8) t.getPosition.1 t.getPosition.2
  if dist > fadd 8 (fsqrt (8 * 8 + 8 * 8)) then pos
  else
    let pos1 := if dist < 16 then (fsub pos.1 d.1, fsub pos.2 d.2) else pos
    if pos1.1 ≥ fsub t.getPosition.1 8 ∧ pos1.1 < fadd t.getPosition.1 8 ∧
        pos1.2 ≥ fsub t.getPosition.2 8 ∧ pos1.2 < fadd t.getPosition.2 8 then
      (fsub pos1.1 d.1, fsub pos1.2 d.2)
    else pos1

/-- One iteration of the loop over `players` in `player.work`; `self` is the index of
the moving player in `players` (the test `otherP == p`). -/
def collidePlayer (d : float64 × float64) (self : ℕ) (pos : float64 × float64)
    (other : ℕ × player) : float64 × float64 :=
  if other.1 = self then pos
  else if getDistance pos.1 pos.2 other.2.x other.2.y < 16 then
    (fsub pos.1 d.1, fsub pos.2 d.2)
  else pos

/-- The movement part of `player.work` (up to the end of the loop over `players`): the
position of the player after it. -/
def player.move (p : player) (self : ℕ) (inp : input) (tiles : List tile)
    (players : List player) : float64 × float64 :=
  let d := stepOf inp
  let pos0 := (fadd p.x d.1, fadd p.y d.2)
  let pos1 := tiles.foldl (collideTile d) pos0
  players.enum.foldl (collidePlayer d self) pos1

/-- What `player.work` can change: the player, the global `tiles` and the global
`orders`. -/
structure workResult where
  p : player
  tiles : List tile
  orders : List (List item)
  deriving DecidableEq

/-- The `if input.interact` block of `player.work`. -/
def player.interact (p : player) (tiles : List tile) (orders : List (List item)) :
    workResult :=
  match getNearbyTile tiles (fadd p.x 8) (fadd p.y 8) maxWorkDist with
  | none => ⟨p, tiles, orders⟩
  | some (ti, t) =>
    match p.holding with
    | none => ⟨{ p with holding := t.pickUp.1 }, tiles.set ti t.pickUp.2, orders⟩
    | some held =>
      let r := t.drop held orders
      ⟨{ p with holding := if r.ok then none else some r.dropped },
        tiles.set ti r.station, r.orders⟩

/-- The `if p.working` block of `player.work`. -/
def player.doWork (p : player) (tiles : List tile) : List tile :=
  match getNearbyTile tiles (fadd p.x 8) (fadd p.y 8) maxWorkDist with
  | none => tiles
  | some (ti, t) => tiles.set ti t.work

/-- The method `player.work`, for the player at index `self` of `players`, on the input
its controller returns. -/
def player.work (p : player) (self : ℕ) (inp : input) (tiles : List tile)
    (players : List player) (orders : List (List item)) : workResult :=
  let moved : player :=
    { p with
      x := (p.move self inp tiles players).1
      y := (p.move self inp tiles players).2
      working := if inp.moveHorizontal = 0 ∧ inp.moveVertical = 0 then p.working else false }
  let r1 : workResult := if inp.interact then moved.interact tiles orders
    else ⟨moved, tiles, orders⟩
  let p2 : player := if inp.startWorking then { r1.p with working := true } else r1.p
  if p2.working then ⟨p2, p2.doWork r1.tiles, r1.orders⟩ else ⟨p2, r1.tiles, r1.orders⟩

/-! ## main.go: the station layout, the player roster and the order ledger -/

/-- The plate of the station layout, `newCleanPlate([]item{newChoppedLettuce(),
newChoppedTomato()})`: a clean plate holding exactly a chopped lettuce and a chopped
tomato. -/
def saladPlate : item :=
  item.cleanPlate [("choppedLettuce", item.choppedLettuce), ("choppedTomato", item.choppedTomato)]

/-- The initial value of the global `tiles`: the station layout. The plate on the first
counter is `newCleanPlate([]item{newChoppedLettuce(), newChoppedTomato()})`. -/
def initialTiles : List tile :=
  [tile.wall ⟨⟨10, 10⟩⟩,
   tile.trash ⟨⟨26, 10⟩⟩,
   tile.choppingBoard (newChoppingBoard 42 10 (1 / 4) (some item.lettuce)),
   tile.tomatoSpawner ⟨⟨58, 10⟩⟩,
   tile.lettuceSpawner ⟨⟨74, 10⟩⟩,
   tile.exit (newExit 90 10),
   tile.sink (newSink 106 10 (1 / 4) (some item.dirtyPlate)),
   tile.counter ⟨⟨10, 26⟩, some saladPlate⟩,
   tile.counter ⟨⟨26, 26⟩, some item.lettuce⟩,
   tile.counter ⟨⟨42, 26⟩, some item.choppedLettuce⟩,
   tile.counter ⟨⟨58, 26⟩, some item.tomato⟩,
   tile.counter ⟨⟨74, 26⟩, some item.choppedTomato⟩,
   tile.counter ⟨⟨90, 26⟩, some item.dirtyPlate⟩,
   tile.counter ⟨⟨106, 26⟩, none⟩]

/-- The initial value of the global `players`. -/
def initialPlayers : List player :=
  [⟨100, 100, none, false⟩, ⟨150, 150, none, false⟩, ⟨100, 150, none, false⟩]

/-- The initial value of the global `orders`. -/
def initialOrders : List (List item) :=
  [[item.choppedLettuce, item.choppedTomato]]

/-- The global `possibleOrders`. -/
def possibleOrders : List (List item) :=
  [[item.choppedLettuce], [item.choppedLettuce, item.choppedTomato]]

/-! ## Vocabulary of the statements -/

/-- A call that can modify a clean plate after its creation: `combine(other)` with the
plate as receiver, or `trash.drop` with the plate as argument. -/
inductive plateOp where
  | combine (other : item)
  | trashDrop (t : trash)

/-- The plate after one such call. -/
def plateOp.apply (p : item) : plateOp → item
  | plateOp.combine other => (p.combine other).2
  | plateOp.trashDrop t => (t.drop p).2

/-- The plate invariant on the contents map: at most 3 entries, distinct keys, every
entry keyed by the name of its item, every item combinable. -/
def plateInv (contents : List (String × item)) : Prop :=
  contents.length ≤ 3 ∧ (contents.map Prod.fst).Nodup ∧
    ∀ kv ∈ contents, kv.1 = kv.2.name ∧ kv.2.canCombine = true

/-- A ledger of three pending orders, the last two alike. -/
def threeOrders : List (List item) :=
  [[item.choppedLettuce], [item.choppedLettuce, item.choppedTomato],
    [item.choppedLettuce, item.choppedTomato]]

/-- A call on a cutting board or a sink: `work()`, `pickUp()` or `drop(i)`. -/
inductive stationOp where
  | work
  | pickUp
  | drop (i : item)

/-- The cutting board after one call. -/
def choppingBoard.step (cb : choppingBoard) : stationOp → choppingBoard
  | stationOp.work => cb.work
  | stationOp.pickUp => cb.pickUp.2
  | stationOp.drop i => (cb.drop i).2

/-- The sink after one call. -/
def sink.step (s : sink) : stationOp → sink
  | stationOp.work => s.work
  | stationOp.pickUp => s.pickUp.2
  | stationOp.drop i => (s.drop i).2

/-- The exact square of the Euclidean distance from the query point `(x, y)` to the
position of a station. -/
def sqDistance (x y : float64) (t : tile) : ℚ :=
  (t.getPosition.1 - x) ^ 2 + (t.getPosition.2 - y) ^ 2

/-- The distance `getNearbyTile` computes from the query point `(x, y)` to a station. -/
def tileDistance (x y : float64) (t : tile) : float64 :=
  getDistance x y t.getPosition.1 t.getPosition.2

/-- No station is in range of the position `pos`: each one is beyond the bounding
envelope `8 + math.Sqrt(8*8+8*8)` of the loop over `tiles` in `player.work`. -/
def noTileInRange (pos : float64 × float64) (tiles : List tile) : Prop :=
  ∀ t ∈ tiles, fadd 8 (fsqrt (8 * 8 + 8 * 8)) <
    getDistance (fadd pos.1 8) (fadd pos.2 8) t.getPosition.1 t.getPosition.2

/-- No other player is in range of the position `pos`: each one is at distance 16 or
more. -/
def noPlayerInRange (pos : float64 × float64) (self : ℕ) (players : List player) : Prop :=
  ∀ o ∈ players.enum, o.1 ≠ self → ¬ getDistance pos.1 pos.2 o.2.x o.2.y < 16

/-- The comparison of `sortByName` is total. -/
instance : IsTotal item (fun a b => a.name ≤ b.name) := ⟨fun a b => le_total a.name b.name⟩

/-- The comparison of `sortByName` is transitive. -/
instance : IsTrans item (fun a b => a.name ≤ b.name) :=
  ⟨fun _ _ _ h1 h2 => le_trans h1 h2⟩

/-- A call on the delivery exit: `pickUp()`, or `drop(i)` with the value the global
`orders` has at that moment. -/
inductive exitOp where
  | pickUp
  | drop (i : item) (orders : List (List item))

/-- An exit together with the number of dirty plates it has handed out and the number of
deliveries it has accepted. -/
structure exitTrace where
  e : exit
  handedOut : ℕ
  delivered : ℕ

/-- One call on the exit, counted. -/
def exitTrace.step (s : exitTrace) : exitOp → exitTrace
  | exitOp.pickUp =>
    ⟨s.e.pickUp.2, if s.e.pickUp.1 = none then s.handedOut else s.handedOut + 1, s.delivered⟩
  | exitOp.drop i orders =>
    ⟨(s.e.drop i orders).2.1, s.handedOut,
      if (s.e.drop i orders).1 = true then s.delivered + 1 else s.delivered⟩

/-- The replenishment step of `update`. `draw1` is the value of `rand.Intn(60*10)` and
`draw2` the value of `rand.Intn(len(possibleOrders))`, which is below
`len(possibleOrders)`. -/
def replenish (orders : List (List item)) (draw1 draw2 : ℕ) : List (List item) :=
  if orders.length < 5 then
    if draw1 = 0 then
      match possibleOrders[draw2]? with
      | some newOrder => orders ++ [newOrder]
      | none => orders
    else orders
  else orders

/-- The globals `tiles`, `players` and `orders`. -/
structure world where
  tiles : List tile
  players : List player
  orders : List (List item)
  deriving DecidableEq

/-- One iteration of the loop `for _, p := range players { p.work() }` of `update`, for
the player at index `k`, whose controller returns `inputs k`. -/
def update.workPlayer (inputs : ℕ → input) (w : world) (k : ℕ) : world :=
  match w.players[k]? with
  | none => w
  | some p =>
    ⟨(p.work k (inputs k) w.tiles w.players w.orders).tiles,
      w.players.set k (p.work k (inputs k) w.tiles w.players w.orders).p,
      (p.work k (inputs k) w.tiles w.players w.orders).orders⟩

/-- The simulation part of `update`: every player works, then the ledger is
replenished. -/
def update (w : world) (inputs : ℕ → input) (draw1 draw2 : ℕ) : world :=
  { (List.range w.players.length).foldl (update.workPlayer inputs) w with
    orders := replenish
      ((List.range w.players.length).foldl (update.workPlayer inputs) w).orders draw1 draw2 }

/-- The initial values of the globals. -/
def initialWorld : world := ⟨initialTiles, initialPlayers, initialOrders⟩

/-- What changes the ledger: a tick of `update`, with the inputs of the controllers and
the two random draws, or a call of `exit.drop`. -/
inductive ledgerOp where
  | update (inputs : ℕ → input) (draw1 draw2 : ℕ)
  | exitDrop (e : exit) (i : item)

/-- The globals after one such event. -/
def ledgerOp.apply (w : world) : ledgerOp → world
  | ledgerOp.update inputs draw1 draw2 => CookingGame.update w inputs draw1 draw2
  | ledgerOp.exitDrop e i => { w with orders := (e.drop i w.orders).2.2 }

/-- The position `player.work` tries first: the old position plus the displacement. -/
def player.tentative (p : player) (inp : input) : float64 × float64 :=
  (fadd p.x (stepOf inp).1, fadd p.y (stepOf inp).2)

/-- The statements `p.x -= speed * hori; p.y -= speed * vert` of `player.work`. -/
def undoStep (d pos : float64 × float64) : float64 × float64 :=
  (fsub pos.1 d.1, fsub pos.2 d.2)

/-- The first test of the loop over `tiles`: the centre of the player is within 16 of the
centre of the station. -/
def tooClose (pos : float64 × float64) (t : tile) : Prop :=
  getDistance (fadd pos.1 8) (fadd pos.2 8) t.getPosition.1 t.getPosition.2 < 16

/-- The second test of the loop over `tiles`: the position is inside the square footprint
of the station. -/
def inFootprint (pos : float64 × float64) (t : tile) : Prop :=
  pos.1 ≥ fsub t.getPosition.1 8 ∧ pos.1 < fadd t.getPosition.1 8 ∧
    pos.2 ≥ fsub t.getPosition.2 8 ∧ pos.2 < fadd t.getPosition.2 8

/-- A station vetoes the position: it is not skipped by the guard
`dist > 8+math.Sqrt(8*8+8*8)` and one of the two tests holds. -/
def tileVetoes (pos : float64 × float64) (t : tile) : Prop :=
  ¬ (getDistance (fadd pos.1 8) (fadd pos.2 8) t.getPosition.1 t.getPosition.2 >
      fadd 8 (fsqrt (8 * 8 + 8 * 8))) ∧
    (tooClose pos t ∨ inFootprint pos t)

/-- Another player (not the one at index `self`) vetoes the position. -/
def playerVetoes (pos : float64 × float64) (self : ℕ) (o : ℕ × player) : Prop :=
  o.1 ≠ self ∧ getDistance pos.1 pos.2 o.2.x o.2.y < 16

/-- The position is clear of every obstacle: not within 16 of a station, in no footprint,
not within 16 of another player. -/
def clearAt (pos : float64 × float64) (self : ℕ) (tiles : List tile)
    (players : List player) : Prop :=
  (∀ t ∈ tiles, ¬ tooClose pos t ∧ ¬ inFootprint pos t) ∧
    ∀ o ∈ players.enum, ¬ playerVetoes pos self o

/-! # Theorems -/

/-! ## Plates: `combine`, `newCleanPlate`, `trash.drop` -/

theorem mapHas_eq_false_iff {β : Type} (m : List (String × β)) (k : String) :
    mapHas m k = false ↔ ∀ kv ∈ m, kv.1 ≠ k := by
  simp [mapHas]

theorem mapSet_of_not_mapHas {β : Type} (m : List (String × β)) (k : String) (v : β)
    (h : mapHas m k = false) : mapSet m k v = m ++ [(k, v)] := by
  simp [mapSet, h]

/-- What `cleanPlate.combine` computes, in one equation. -/
theorem combine_cleanPlate (contents : List (String × item)) (o : item) :
    (item.cleanPlate contents).combine o =
      if o.canCombine = true ∧ contents.length < 3 ∧ mapHas contents o.name = false then
        (true, item.cleanPlate (contents ++ [(o.name, o)]))
      else (false, item.cleanPlate contents) := by
  unfold item.combine
  by_cases h1 : o.canCombine = true
  · by_cases h2 : contents.length < 3
    · cases h3 : mapHas contents o.name
      · have h2' : ¬ contents.length ≥ 3 := by omega
        simp [h1, h2, h2', h3, mapSet_of_not_mapHas]
      · have h2' : ¬ contents.length ≥ 3 := by omega
        simp [h1, h2, h2', h3]
    · have h2' : contents.length ≥ 3 := by omega
      simp [h1, h2, h2']
  · simp [h1]

theorem combine_of_not_cleanPlate (p o : item) (h : ∀ contents, p ≠ item.cleanPlate contents) :
    p.combine o = (false, p) := by
  cases p with
  | cleanPlate c => exact absurd rfl (h c)
  | _ => rfl

/-- A rejected `combine` leaves the receiver as it was. -/
theorem combine_false (p o : item) (h : (p.combine o).1 = false) : (p.combine o).2 = p := by
  cases p with
  | cleanPlate c =>
    rw [combine_cleanPlate] at h ⊢
    split <;> simp_all
  | _ => rfl

/-- C4: on a clean plate `combine(o)` returns true iff `o.canCombine()`, the plate holds
fewer than 3 items and no entry is keyed by `o.name()`; on true the contents are the old
contents plus `o` under `o.name()`, on false they are unchanged. On any item that is not
a clean plate `combine` returns false and changes nothing. -/
theorem combine_spec (p o : item) :
    (∀ contents, p = item.cleanPlate contents →
      ((p.combine o).1 = true ↔
        o.canCombine = true ∧ contents.length < 3 ∧ ∀ kv ∈ contents, kv.1 ≠ o.name) ∧
      ((p.combine o).1 = true →
        (p.combine o).2 = item.cleanPlate (contents ++ [(o.name, o)])) ∧
      ((p.combine o).1 = false → (p.combine o).2 = p)) ∧
    ((∀ contents, p ≠ item.cleanPlate contents) → p.combine o = (false, p)) := by
  refine ⟨?_, combine_of_not_cleanPlate p o⟩
  rintro contents rfl
  refine ⟨?_, ?_, combine_false _ o⟩
  · rw [combine_cleanPlate, ← mapHas_eq_false_iff]
    split <;> simp_all
  · rw [combine_cleanPlate]
    split <;> simp_all

/-- C4 at a concrete input: an empty plate accepts a chopped lettuce, a raw lettuce
accepts nothing. -/
theorem combine_spec_witness :
    ((item.cleanPlate []).combine item.choppedLettuce).1 = true ∧
    ((item.cleanPlate []).combine item.choppedLettuce).2 =
      item.cleanPlate ([] ++ [(item.choppedLettuce.name, item.choppedLettuce)]) ∧
    item.lettuce.combine item.choppedLettuce = (false, item.lettuce) :=
  ⟨by decide,
    ((combine_spec (item.cleanPlate []) item.choppedLettuce).1 [] rfl).2.1 (by decide),
    (combine_spec item.lettuce item.choppedLettuce).2 (fun _ h => item.noConfusion h)⟩

theorem plateInv_nil : plateInv [] := by
  simp [plateInv]

theorem plateInv_combine (contents : List (String × item)) (o : item)
    (h : plateInv contents) :
    ∃ contents', ((item.cleanPlate contents).combine o).2 = item.cleanPlate contents' ∧
      plateInv contents' := by
  rw [combine_cleanPlate]
  split
  · rename_i hc
    obtain ⟨hcan, hlen, hkey⟩ := hc
    rw [mapHas_eq_false_iff] at hkey
    refine ⟨_, rfl, ?_, ?_, ?_⟩
    · simp only [List.length_append, List.length_singleton]; omega
    · rw [List.map_append, List.nodup_append]
      refine ⟨h.2.1, by simp, ?_⟩
      intro k hk hk'
      simp only [List.map_cons, List.map_nil, List.mem_singleton] at hk'
      obtain ⟨kv, hkv, rfl⟩ := List.mem_map.1 hk
      exact hkey kv hkv hk'
    · intro kv hkv
      rcases List.mem_append.1 hkv with hkv | hkv
      · exact h.2.2 kv hkv
      · simp only [List.mem_singleton] at hkv
        subst hkv
        exact ⟨rfl, hcan⟩
  · exact ⟨contents, rfl, h⟩

theorem plateInv_apply (contents : List (String × item)) (op : plateOp)
    (h : plateInv contents) :
    ∃ contents', op.apply (item.cleanPlate contents) = item.cleanPlate contents' ∧
      plateInv contents' := by
  cases op with
  | combine o => exact plateInv_combine contents o h
  | trashDrop t => exact ⟨[], rfl, plateInv_nil⟩

theorem plateInv_foldl (ops : List plateOp) (contents : List (String × item))
    (h : plateInv contents) :
    ∃ contents', ops.foldl plateOp.apply (item.cleanPlate contents) = item.cleanPlate contents' ∧
      plateInv contents' := by
  induction ops generalizing contents with
  | nil => exact ⟨contents, rfl, h⟩
  | cons op rest ih =>
    obtain ⟨c1, h1, hinv1⟩ := plateInv_apply contents op h
    rw [List.foldl_cons, h1]
    exact ih c1 hinv1

theorem plateInv_newCleanPlate_loop (items : List item) (contents : List (String × item))
    (p : item) (h : plateInv contents)
    (hp : newCleanPlate.loop (item.cleanPlate contents) items = some p) :
    ∃ contents', p = item.cleanPlate contents' ∧ plateInv contents' := by
  induction items generalizing contents with
  | nil =>
    simp only [newCleanPlate.loop, Option.some.injEq] at hp
    exact ⟨contents, hp.symm, h⟩
  | cons i rest ih =>
    obtain ⟨c1, h1, hinv1⟩ := plateInv_combine contents i h
    unfold newCleanPlate.loop at hp
    cases hb : ((item.cleanPlate contents).combine i).1
    · have : (item.cleanPlate contents).combine i =
          (false, ((item.cleanPlate contents).combine i).2) := by rw [← hb]
      rw [this] at hp
      simp at hp
    · have : (item.cleanPlate contents).combine i =
          (true, ((item.cleanPlate contents).combine i).2) := by rw [← hb]
      rw [this, h1] at hp
      exact ih c1 hinv1 hp

/-- C5: a clean plate made by `newCleanPlate` or by `dirtyPlate.completeWash` and then
modified by any sequence of `combine` and `trash.drop` calls is still a clean plate, holds
at most 3 items, holds every item under the key equal to its name, holds no two entries
with the same key nor two items with the same name, and holds only items whose
`canCombine()` is true. -/
theorem plate_invariant (p0 : item) (ops : List plateOp)
    (hstart : (∃ items, newCleanPlate items = some p0) ∨
      item.dirtyPlate.completeWash = some p0) :
    ∃ contents, ops.foldl plateOp.apply p0 = item.cleanPlate contents ∧
      contents.length ≤ 3 ∧
      (∀ kv ∈ contents, kv.1 = kv.2.name ∧ kv.2.canCombine = true) ∧
      (contents.map Prod.fst).Nodup ∧
      (contents.map (fun kv => kv.2.name)).Nodup := by
  have h0 : ∃ c0, p0 = item.cleanPlate c0 ∧ plateInv c0 := by
    rcases hstart with ⟨items, h⟩ | h
    · exact plateInv_newCleanPlate_loop items [] p0 plateInv_nil h
    · exact plateInv_newCleanPlate_loop [] [] p0 plateInv_nil h
  obtain ⟨c0, rfl, hinv0⟩ := h0
  obtain ⟨c, hc, hlen, hkeys, hall⟩ := plateInv_foldl ops c0 hinv0
  refine ⟨c, hc, hlen, hall, hkeys, ?_⟩
  have : c.map (fun kv => kv.2.name) = c.map Prod.fst :=
    List.map_congr_left (fun kv hkv => (hall kv hkv).1.symm)
  rw [this]
  exact hkeys

/-- C5 at a concrete input: the plate of the station layout, after a further `combine`
and a `trash.drop`. -/
theorem plate_invariant_witness :
    newCleanPlate [item.choppedLettuce, item.choppedTomato] =
      some (item.cleanPlate [("choppedLettuce", item.choppedLettuce),
        ("choppedTomato", item.choppedTomato)]) ∧
    ∃ contents,
      [plateOp.combine item.choppedTomato, plateOp.trashDrop ⟨⟨26, 10⟩⟩].foldl plateOp.apply
          (item.cleanPlate [("choppedLettuce", item.choppedLettuce),
            ("choppedTomato", item.choppedTomato)]) = item.cleanPlate contents ∧
      contents.length ≤ 3 ∧
      (∀ kv ∈ contents, kv.1 = kv.2.name ∧ kv.2.canCombine = true) ∧
      (contents.map Prod.fst).Nodup ∧
      (contents.map (fun kv => kv.2.name)).Nodup :=
  ⟨by decide!, plate_invariant _ _
    (Or.inl ⟨[item.choppedLettuce, item.choppedTomato], by decide!⟩)⟩

/-! ## The delivery exit: `exit.drop` -/

/-- The flag `matching` of `exit.drop` is equality of the two name sequences. -/
theorem orderMatches_iff_names (order plate : List item) :
    orderMatches order plate = true ↔ order.map item.name = plate.map item.name := by
  unfold orderMatches
  induction order generalizing plate with
  | nil => cases plate <;> simp
  | cons o os ih =>
    cases plate with
    | nil => simp
    | cons q qs =>
      have := ih qs
      by_cases hlen : os.length = qs.length
      · simp [hlen] at this ⊢
        rw [this]
        exact fun _ => Iff.rfl
      · simp [hlen]
        intro _ h
        exact hlen (by simpa using congrArg List.length h)

/-- The names of `plateContents` are in ascending order. -/
theorem plateContents_names_sorted (contents : List (String × item)) :
    ((plateContents contents).map item.name).Sorted (· ≤ ·) := by
  have h := List.sorted_insertionSort (fun a b : item => a.name ≤ b.name)
    (contents.map Prod.snd)
  unfold plateContents sortByName
  unfold List.Sorted at h ⊢
  rw [List.pairwise_map]
  exact h

/-- The names of `plateContents` are a rearrangement of the names on the plate. -/
theorem plateContents_names_perm (contents : List (String × item)) :
    ((plateContents contents).map item.name).Perm ((contents.map Prod.snd).map item.name) :=
  (List.perm_insertionSort _ _).map _

/-- With a one-order ledger `exit.drop` returns the flag `matching` of that order. -/
theorem exit_drop_single (e : exit) (contents : List (String × item)) (order : List item) :
    (e.drop (item.cleanPlate contents) [order]).1 =
      orderMatches order (plateContents contents) := by
  unfold exit.drop
  cases h : orderMatches order (plateContents contents) <;> simp [List.findIdx?, h]

/-- C1 fails as stated: the ledger's only order is `[choppedTomato, choppedLettuce]`,
the plate holds exactly a chopped lettuce and a chopped tomato (the same multiset of
names), and `exit.drop` rejects the plate. -/
theorem exit_drop_unsorted_order_rejected :
    newCleanPlate [item.choppedLettuce, item.choppedTomato] = some saladPlate ∧
    (([item.choppedTomato, item.choppedLettuce].map item.name : List String) :
        Multiset String) =
      (([item.choppedLettuce, item.choppedTomato].map item.name : List String) :
        Multiset String) ∧
    ((newExit 90 10).drop saladPlate [[item.choppedTomato, item.choppedLettuce]]).1 = false := by
  decide!

/-- C1 as amended: an order matches a plate iff its names are listed in ascending order
and their multiset equals the multiset of the names on the plate. The plate holding a
chopped lettuce and a chopped tomato is accepted for `[choppedLettuce, choppedTomato]`
and rejected for `[choppedTomato, choppedLettuce]`, `[choppedLettuce]` and
`[choppedLettuce, choppedLettuce]`. -/
theorem exit_drop_match_iff (e : exit) (contents : List (String × item))
    (order : List item) :
    ((e.drop (item.cleanPlate contents) [order]).1 = true ↔
      (order.map item.name).Sorted (· ≤ ·) ∧
      ((order.map item.name : List String) : Multiset String) =
        (((contents.map Prod.snd).map item.name : List String) : Multiset String)) ∧
    (e.drop saladPlate [[item.choppedLettuce, item.choppedTomato]]).1 = true ∧
    (e.drop saladPlate [[item.choppedTomato, item.choppedLettuce]]).1 = false ∧
    (e.drop saladPlate [[item.choppedLettuce]]).1 = false ∧
    (e.drop saladPlate [[item.choppedLettuce, item.choppedLettuce]]).1 = false := by
  refine ⟨?_, ?_, ?_, ?_, ?_⟩
  · rw [exit_drop_single, orderMatches_iff_names]
    constructor
    · intro h
      rw [h]
      exact ⟨plateContents_names_sorted contents,
        Quotient.sound (plateContents_names_perm contents)⟩
    · rintro ⟨hs, hm⟩
      have hp : (order.map item.name).Perm ((plateContents contents).map item.name) :=
        (Quotient.exact hm).trans (plateContents_names_perm contents).symm
      exact List.eq_of_perm_of_sorted hp hs (plateContents_names_sorted contents)
  · rw [saladPlate, exit_drop_single]; decide!
  · rw [saladPlate, exit_drop_single]; decide!
  · rw [saladPlate, exit_drop_single]; decide!
  · rw [saladPlate, exit_drop_single]; decide!

theorem wrapInt64_of_range (n : ℤ) (h1 : -9223372036854775808 ≤ n)
    (h2 : n < 9223372036854775808) : wrapInt64 n = n := by
  unfold wrapInt64
  omega

/-- C2 fails as stated: at an exit whose `numDirty` is the largest `int`, delivering the
plate of the station layout against the initial ledger is accepted and `numDirty` becomes
the smallest `int` instead of increasing by one. -/
theorem exit_drop_numDirty_wraps :
    (∃ order ∈ initialOrders, order.map item.name =
      (plateContents [("choppedLettuce", item.choppedLettuce),
        ("choppedTomato", item.choppedTomato)]).map item.name) ∧
    exit.drop ⟨⟨90, 10⟩, 9223372036854775807⟩ saladPlate initialOrders =
      (true, ⟨⟨90, 10⟩, -9223372036854775808⟩, []) ∧
    (-9223372036854775808 : ℤ) ≠ 9223372036854775807 + 1 := by
  decide!

/-- C2 as amended: when some pending order's name sequence equals the plate's name-sorted
contents, `exit.drop` returns true, removes from the ledger the order at the smallest
matching index `oi` and nothing else (the other orders keep their relative order, the
length drops by one), and increments `numDirty` as a 64-bit `int`: by exactly one when
`numDirty` is an `int` below the largest one, 2^63 - 1. -/
theorem exit_drop_accept (e : exit) (contents : List (String × item))
    (orders : List (List item))
    (h : ∃ order ∈ orders, order.map item.name = (plateContents contents).map item.name) :
    (∃ oi, oi < orders.length ∧
      (∃ order, orders[oi]? = some order ∧
        order.map item.name = (plateContents contents).map item.name) ∧
      (∀ j < oi, ∀ order, orders[j]? = some order →
        order.map item.name ≠ (plateContents contents).map item.name) ∧
      e.drop (item.cleanPlate contents) orders =
        (true, { e with numDirty := wrapInt64 (e.numDirty + 1) }, orders.eraseIdx oi) ∧
      (orders.eraseIdx oi).length + 1 = orders.length) ∧
    (-9223372036854775808 ≤ e.numDirty → e.numDirty < 9223372036854775807 →
      (e.drop (item.cleanPlate contents) orders).2.1.numDirty = e.numDirty + 1) := by
  obtain ⟨order, hmem, hnames⟩ := h
  have hex : ∃ o, o ∈ orders ∧ orderMatches o (plateContents contents) = true :=
    ⟨order, hmem, (orderMatches_iff_names _ _).2 hnames⟩
  have hfind := List.findIdx?_eq_some_of_exists hex
  obtain ⟨hlt, hp, hmin⟩ := List.findIdx?_eq_some_iff_getElem.1 hfind
  have hdrop : e.drop (item.cleanPlate contents) orders =
      (true, { e with numDirty := wrapInt64 (e.numDirty + 1) },
        orders.eraseIdx (orders.findIdx
          (fun order => orderMatches order (plateContents contents)))) := by
    unfold exit.drop
    simp only [hfind, List.eraseIdx_eq_take_drop_succ]
  refine ⟨⟨_, hlt, ⟨_, List.getElem?_eq_getElem hlt, (orderMatches_iff_names _ _).1 hp⟩,
    ?_, hdrop, ?_⟩, ?_⟩
  · intro j hj o ho hn
    have hjlt : j < orders.length := Nat.lt_trans hj hlt
    rw [List.getElem?_eq_getElem hjlt, Option.some.injEq] at ho
    subst ho
    exact hmin j hj ((orderMatches_iff_names _ _).2 hn)
  · rw [List.length_eraseIdx_of_lt hlt]
    omega
  · intro hlo hhi
    rw [hdrop]
    exact wrapInt64_of_range _ (by omega) (by omega)

/-- C2 as amended, at a concrete input: three pending orders, the second and third match
the plate, the second is the one removed, and `numDirty` goes from 0 to 1. -/
theorem exit_drop_accept_witness :
    (∃ order ∈ threeOrders, order.map item.name =
      (plateContents [("choppedLettuce", item.choppedLettuce),
        ("choppedTomato", item.choppedTomato)]).map item.name) ∧
    (newExit 90 10).drop saladPlate threeOrders =
      (true, { newExit 90 10 with numDirty := 1 },
        [[item.choppedLettuce], [item.choppedLettuce, item.choppedTomato]]) ∧
    (∃ oi, oi < threeOrders.length ∧
      (∃ order, threeOrders[oi]? = some order ∧
        order.map item.name = (plateContents [("choppedLettuce", item.choppedLettuce),
          ("choppedTomato", item.choppedTomato)]).map item.name) ∧
      (∀ j < oi, ∀ order, threeOrders[j]? = some order →
        order.map item.name ≠ (plateContents [("choppedLettuce", item.choppedLettuce),
          ("choppedTomato", item.choppedTomato)]).map item.name) ∧
      (newExit 90 10).drop saladPlate threeOrders =
        (true, { newExit 90 10 with numDirty := wrapInt64 ((newExit 90 10).numDirty + 1) },
          threeOrders.eraseIdx oi) ∧
      (threeOrders.eraseIdx oi).length + 1 = threeOrders.length) ∧
    ((newExit 90 10).drop saladPlate threeOrders).2.1.numDirty = (newExit 90 10).numDirty + 1 :=
  ⟨⟨[item.choppedLettuce, item.choppedTomato], by simp [threeOrders], by decide!⟩,
    by decide!,
    (exit_drop_accept (newExit 90 10)
      [("choppedLettuce", item.choppedLettuce), ("choppedTomato", item.choppedTomato)]
      threeOrders ⟨[item.choppedLettuce, item.choppedTomato], by simp [threeOrders],
        by decide!⟩).1,
    (exit_drop_accept (newExit 90 10)
      [("choppedLettuce", item.choppedLettuce), ("choppedTomato", item.choppedTomato)]
      threeOrders ⟨[item.choppedLettuce, item.choppedTomato], by simp [threeOrders],
        by decide!⟩).2 (by decide) (by decide)⟩

/-- C3: `exit.drop(i)` on an item that is not a clean plate, or on a clean plate whose
name-sorted contents equal no pending order's name sequence, returns false and leaves
the ledger, the exit (so its `numDirty`) and the item (so a plate's contents) as they
were. -/
theorem exit_drop_reject (e : exit) (i : item) (orders : List (List item))
    (h : (∀ contents, i ≠ item.cleanPlate contents) ∨
      ∃ contents, i = item.cleanPlate contents ∧
        ∀ order ∈ orders, order.map item.name ≠ (plateContents contents).map item.name) :
    e.drop i orders = (false, e, orders) ∧
    tile.drop (tile.exit e) i orders = ⟨false, tile.exit e, i, orders⟩ := by
  have h1 : e.drop i orders = (false, e, orders) := by
    rcases h with h | ⟨contents, rfl, h⟩
    · cases i with
      | cleanPlate c => exact absurd rfl (h c)
      | _ => rfl
    · have hnone : orders.findIdx? (fun order => orderMatches order (plateContents contents))
          = none := by
        rw [List.findIdx?_eq_none_iff]
        intro o ho
        cases hm : orderMatches o (plateContents contents)
        · rfl
        · exact absurd ((orderMatches_iff_names _ _).1 hm) (h o ho)
      unfold exit.drop
      simp only [hnone]
  exact ⟨h1, by simp only [tile.drop, h1]⟩

/-- C3 at concrete inputs: a dirty plate, and a plate holding only a chopped tomato while
the ledger wants lettuce and tomato. -/
theorem exit_drop_reject_witness :
    (newExit 90 10).drop item.dirtyPlate initialOrders = (false, newExit 90 10, initialOrders) ∧
    (∀ order ∈ initialOrders, order.map item.name ≠
      (plateContents [("choppedTomato", item.choppedTomato)]).map item.name) ∧
    tile.drop (tile.exit (newExit 90 10))
        (item.cleanPlate [("choppedTomato", item.choppedTomato)]) initialOrders =
      ⟨false, tile.exit (newExit 90 10),
        item.cleanPlate [("choppedTomato", item.choppedTomato)], initialOrders⟩ :=
  ⟨(exit_drop_reject _ _ _ (Or.inl (fun _ h => item.noConfusion h))).1,
    by decide!,
    (exit_drop_reject (newExit 90 10) (item.cleanPlate [("choppedTomato", item.choppedTomato)])
      initialOrders (Or.inr ⟨_, rfl, by decide!⟩)).2⟩

/-! ## Rejected drops -/

/-- A rejected `exit.drop` changes neither the exit nor the ledger. -/
theorem exit_drop_false (e : exit) (i : item) (orders : List (List item))
    (h : (e.drop i orders).1 = false) : e.drop i orders = (false, e, orders) := by
  cases i with
  | cleanPlate c =>
    unfold exit.drop at h ⊢
    cases hf : orders.findIdx? (fun order => orderMatches order (plateContents c)) with
    | none => simp only [hf]
    | some oi => simp [hf] at h
  | _ => rfl

theorem counter_drop_false (c : counter) (i : item) (h : (c.drop i).1 = false) :
    (c.drop i).2 = c := by
  unfold counter.drop at h ⊢
  cases hc : c.contents with
  | none => simp [hc] at h
  | some held =>
    simp only [hc] at h ⊢
    rw [combine_false held i h, ← hc]

theorem choppingBoard_drop_false (cb : choppingBoard) (i : item) (h : (cb.drop i).1 = false) :
    (cb.drop i).2 = cb := by
  unfold choppingBoard.drop at h ⊢
  cases hcut : i.canCut with
  | false => simp
  | true =>
    cases hc : cb.contents with
    | none => simp [hcut, hc] at h
    | some held =>
      simp only [hcut, hc, Bool.not_true, Bool.false_eq_true, if_false] at h ⊢
      rw [combine_false held i h, ← hc]

theorem sink_drop_false (s : sink) (i : item) (h : (s.drop i).1 = false) :
    (s.drop i).2 = s := by
  unfold sink.drop at h ⊢
  cases hw : i.canWash with
  | false => simp
  | true =>
    cases hc : s.contents with
    | none => simp [hw, hc] at h
    | some held =>
      simp only [hw, hc, Bool.not_true, Bool.false_eq_true, if_false] at h ⊢
      rw [combine_false held i h, ← hc]

/-- C6 fails as stated: `trash.drop` of the plate holding a chopped lettuce and a chopped
tomato returns false and yet empties the plate. -/
theorem trash_drop_rejects_and_empties :
    (tile.drop (tile.trash ⟨⟨26, 10⟩⟩) saladPlate initialOrders).ok = false ∧
    (tile.drop (tile.trash ⟨⟨26, 10⟩⟩) saladPlate initialOrders).dropped = item.cleanPlate [] ∧
    (tile.drop (tile.trash ⟨⟨26, 10⟩⟩) saladPlate initialOrders).dropped ≠ saladPlate := by
  decide!

/-- C6 as amended: when a station's `drop(i)` returns false, the station and the order
ledger are what they were before the call, and so is the item `i`, unless the station is
the trash and `i` is a clean plate: that plate comes back with empty contents. -/
theorem drop_rejected_effect (t : tile) (i : item) (orders : List (List item))
    (h : (t.drop i orders).ok = false) :
    (t.drop i orders).station = t ∧ (t.drop i orders).orders = orders ∧
    (((∀ tr, t ≠ tile.trash tr) ∨ (∀ c, i ≠ item.cleanPlate c)) →
      (t.drop i orders).dropped = i) ∧
    (∀ tr c, t = tile.trash tr → i = item.cleanPlate c →
      (t.drop i orders).dropped = item.cleanPlate []) := by
  cases t with
  | wall w => exact ⟨rfl, rfl, fun _ => rfl, fun _ _ ht => tile.noConfusion ht⟩
  | counter c =>
    exact ⟨congrArg tile.counter (counter_drop_false c i h), rfl, fun _ => rfl,
      fun _ _ ht => tile.noConfusion ht⟩
  | tomatoSpawner s => exact ⟨rfl, rfl, fun _ => rfl, fun _ _ ht => tile.noConfusion ht⟩
  | lettuceSpawner s => exact ⟨rfl, rfl, fun _ => rfl, fun _ _ ht => tile.noConfusion ht⟩
  | exit e =>
    have he := exit_drop_false e i orders h
    refine ⟨?_, ?_, fun _ => rfl, fun _ _ ht => tile.noConfusion ht⟩
    · simp only [tile.drop, he]
    · simp only [tile.drop, he]
  | trash tr =>
    refine ⟨rfl, rfl, ?_, ?_⟩
    · rintro (hne | hne)
      · exact absurd rfl (hne tr)
      · cases i with
        | cleanPlate c => exact absurd rfl (hne c)
        | dirtyPlate => rfl
        | lettuce => rfl
        | choppedLettuce => rfl
        | tomato => rfl
        | choppedTomato => rfl
    · rintro _ c _ rfl
      rfl
  | choppingBoard cb =>
    exact ⟨congrArg tile.choppingBoard (choppingBoard_drop_false cb i h), rfl, fun _ => rfl,
      fun _ _ ht => tile.noConfusion ht⟩
  | sink s =>
    exact ⟨congrArg tile.sink (sink_drop_false s i h), rfl, fun _ => rfl,
      fun _ _ ht => tile.noConfusion ht⟩

/-- C6 as amended, at a concrete input: the counter of the layout that holds a raw
lettuce refuses a chopped tomato. -/
theorem drop_rejected_effect_witness :
    (tile.drop (tile.counter ⟨⟨26, 26⟩, some item.lettuce⟩) item.choppedTomato
      initialOrders).ok = false ∧
    (tile.drop (tile.counter ⟨⟨26, 26⟩, some item.lettuce⟩) item.choppedTomato
      initialOrders).station = tile.counter ⟨⟨26, 26⟩, some item.lettuce⟩ ∧
    (tile.drop (tile.counter ⟨⟨26, 26⟩, some item.lettuce⟩) item.choppedTomato
      initialOrders).orders = initialOrders :=
  ⟨by decide!,
    (drop_rejected_effect (tile.counter ⟨⟨26, 26⟩, some item.lettuce⟩) item.choppedTomato
      initialOrders (by decide!)).1,
    (drop_rejected_effect (tile.counter ⟨⟨26, 26⟩, some item.lettuce⟩) item.choppedTomato
      initialOrders (by decide!)).2.1⟩

/-! ## Timed work -/

set_option maxRecDepth 1000000 in
/-- C7, the code at the failing input: a cutting board holding a raw lettuce with progress
0 still holds the raw lettuce after 180 consecutive `work()` calls, with progress
`9007199254740969 / 2 ^ 53` (just below 1), and a `pickUp()` then returns the raw
lettuce; the 181st call is the one that replaces the lettuce by a chopped lettuce and
resets progress to 0. The same holds for a raw tomato. (The board of the station layout
starts at progress 0.25 and is done well within 180 calls.) -/
theorem choppingBoard_work_180_calls :
    choppingBoard.work^[180] (newChoppingBoard 42 10 0 (some item.lettuce)) =
      newChoppingBoard 42 10 (9007199254740969 / 9007199254740992) (some item.lettuce) ∧
    (choppingBoard.work^[180] (newChoppingBoard 42 10 0 (some item.lettuce))).pickUp.1 =
      some item.lettuce ∧
    choppingBoard.work^[181] (newChoppingBoard 42 10 0 (some item.lettuce)) =
      newChoppingBoard 42 10 0 (some item.choppedLettuce) ∧
    choppingBoard.work^[180] (newChoppingBoard 42 10 0 (some item.tomato)) =
      newChoppingBoard 42 10 (9007199254740969 / 9007199254740992) (some item.tomato) ∧
    choppingBoard.work^[181] (newChoppingBoard 42 10 0 (some item.tomato)) =
      newChoppingBoard 42 10 0 (some item.choppedTomato) ∧
    choppingBoard.work^[180] (newChoppingBoard 42 10 (1 / 4) (some item.lettuce)) =
      newChoppingBoard 42 10 0 (some item.choppedLettuce) := by
  decide!

set_option maxRecDepth 1000000 in
/-- The sink accumulates its progress the same way: a sink holding a dirty plate with
progress 0 still holds the dirty plate after 180 consecutive `work()` calls, and the
181st call replaces it by an empty clean plate. -/
theorem sink_work_180_calls :
    sink.work^[180] (newSink 106 10 0 (some item.dirtyPlate)) =
      newSink 106 10 (9007199254740969 / 9007199254740992) (some item.dirtyPlate) ∧
    sink.work^[181] (newSink 106 10 0 (some item.dirtyPlate)) =
      newSink 106 10 0 (some (item.cleanPlate [])) := by
  decide!

/-! ## The progress ratio -/

theorem pow2_pos (e : ℤ) : 0 < pow2 e := by
  unfold pow2
  split
  · positivity
  · positivity

theorem roundHalfEven_nonneg (s : ℚ) (h : 0 ≤ s) : 0 ≤ roundHalfEven s := by
  have hf : 0 ≤ ⌊s⌋ := Int.floor_nonneg.2 h
  unfold roundHalfEven
  simp only
  split
  · exact hf
  · split
    · omega
    · split
      · exact hf
      · omega

/-- Rounding to float64 keeps a non-negative number non-negative. -/
theorem round64_nonneg (q : ℚ) (h : 0 ≤ q) : 0 ≤ round64 q := by
  unfold round64
  split
  · exact le_refl 0
  · have hs : 0 ≤ q / pow2 (ulpExp q) := div_nonneg h (pow2_pos _).le
    have hr : (0 : ℚ) ≤ (roundHalfEven (q / pow2 (ulpExp q)) : ℚ) := by
      exact_mod_cast roundHalfEven_nonneg _ hs
    exact mul_nonneg hr (pow2_pos _).le

theorem workIncrement_pos : 0 < workIncrement := by decide!

theorem fadd_workIncrement_nonneg (p : float64) (h : 0 ≤ p) : 0 ≤ fadd p workIncrement :=
  round64_nonneg _ (add_nonneg h workIncrement_pos.le)

theorem choppingBoard_step_progress (cb : choppingBoard) (op : stationOp)
    (h : 0 ≤ cb.progress ∧ cb.progress < 1) :
    0 ≤ (cb.step op).progress ∧ (cb.step op).progress < 1 := by
  cases op with
  | work =>
    simp only [choppingBoard.step, choppingBoard.work]
    split
    · exact h
    · split
      · exact h
      · split
        · exact ⟨le_refl 0, zero_lt_one⟩
        · rename_i hlt
          exact ⟨fadd_workIncrement_nonneg _ h.1, not_le.1 hlt⟩
  | pickUp =>
    simp only [choppingBoard.step, choppingBoard.pickUp]
    split
    · exact ⟨le_refl 0, zero_lt_one⟩
    · exact h
  | drop i =>
    simp only [choppingBoard.step, choppingBoard.drop]
    split
    · exact h
    · split <;> exact h

theorem sink_step_progress (s : sink) (op : stationOp)
    (h : 0 ≤ s.progress ∧ s.progress < 1) :
    0 ≤ (s.step op).progress ∧ (s.step op).progress < 1 := by
  cases op with
  | work =>
    simp only [sink.step, sink.work]
    split
    · exact h
    · split
      · exact h
      · split
        · exact ⟨le_refl 0, zero_lt_one⟩
        · rename_i hlt
          exact ⟨fadd_workIncrement_nonneg _ h.1, not_le.1 hlt⟩
  | pickUp =>
    simp only [sink.step, sink.pickUp]
    split
    · exact ⟨le_refl 0, zero_lt_one⟩
    · exact h
  | drop i =>
    simp only [sink.step, sink.drop]
    split
    · exact h
    · split <;> exact h

theorem choppingBoard_foldl_progress (ops : List stationOp) (cb : choppingBoard)
    (h : 0 ≤ cb.progress ∧ cb.progress < 1) :
    0 ≤ (ops.foldl choppingBoard.step cb).progress ∧
      (ops.foldl choppingBoard.step cb).progress < 1 := by
  induction ops generalizing cb with
  | nil => exact h
  | cons op rest ih => exact ih _ (choppingBoard_step_progress cb op h)

theorem sink_foldl_progress (ops : List stationOp) (s : sink)
    (h : 0 ≤ s.progress ∧ s.progress < 1) :
    0 ≤ (ops.foldl sink.step s).progress ∧ (ops.foldl sink.step s).progress < 1 := by
  induction ops generalizing s with
  | nil => exact h
  | cons op rest ih => exact ih _ (sink_step_progress s op h)

theorem choppingBoard_pickUp_progress (cb : choppingBoard) (h : cb.pickUp.1 ≠ none) :
    cb.pickUp.2.progress = 0 := by
  unfold choppingBoard.pickUp at h ⊢
  split
  · rfl
  · rename_i hc
    simp [hc] at h

theorem sink_pickUp_progress (s : sink) (h : s.pickUp.1 ≠ none) :
    s.pickUp.2.progress = 0 := by
  unfold sink.pickUp at h ⊢
  split
  · rfl
  · rename_i hc
    simp [hc] at h

theorem choppingBoard_work_replace (cb : choppingBoard) (h : cb.work.contents ≠ cb.contents) :
    cb.work.progress = 0 := by
  unfold choppingBoard.work at h ⊢
  split
  · rename_i hc
    simp [hc] at h
  · rename_i held hc
    split
    · rename_i hcut
      simp [hc, hcut] at h
    · split
      · rfl
      · rename_i hcut hlt
        simp [hc, hcut, hlt] at h

theorem sink_work_replace (s : sink) (h : s.work.contents ≠ s.contents) :
    s.work.progress = 0 := by
  unfold sink.work at h ⊢
  split
  · rename_i hc
    simp [hc] at h
  · rename_i held hc
    split
    · rename_i hw
      simp [hc, hw] at h
    · split
      · rfl
      · rename_i hw hlt
        simp [hc, hw, hlt] at h

/-- C8: a cutting board and a sink created with progress in [0,1) keep their progress in
[0,1) through any sequence of `work()`, `pickUp()` and `drop()` calls; the progress is 0
right after every `pickUp()` that returns an item and right after every `work()` call that
replaces the held item. -/
theorem progress_invariant (x y p : float64) (c : Option item) (ops : List stationOp)
    (h0 : 0 ≤ p) (h1 : p < 1) :
    (0 ≤ (ops.foldl choppingBoard.step (newChoppingBoard x y p c)).progress ∧
      (ops.foldl choppingBoard.step (newChoppingBoard x y p c)).progress < 1) ∧
    (0 ≤ (ops.foldl sink.step (newSink x y p c)).progress ∧
      (ops.foldl sink.step (newSink x y p c)).progress < 1) ∧
    (∀ cb : choppingBoard, cb.pickUp.1 ≠ none → cb.pickUp.2.progress = 0) ∧
    (∀ s : sink, s.pickUp.1 ≠ none → s.pickUp.2.progress = 0) ∧
    (∀ cb : choppingBoard, cb.work.contents ≠ cb.contents → cb.work.progress = 0) ∧
    (∀ s : sink, s.work.contents ≠ s.contents → s.work.progress = 0) :=
  ⟨choppingBoard_foldl_progress ops _ ⟨h0, h1⟩, sink_foldl_progress ops _ ⟨h0, h1⟩,
    choppingBoard_pickUp_progress, sink_pickUp_progress, choppingBoard_work_replace,
    sink_work_replace⟩

/-- C8 at a concrete input: the cutting board of the station layout (progress 0.25),
worked on once, emptied, refilled and worked on again; and a board one call away from
completion. -/
theorem progress_invariant_witness :
    ((0 : ℚ) ≤ 1 / 4 ∧ (1 / 4 : ℚ) < 1) ∧
    (0 ≤ ([stationOp.work, stationOp.pickUp, stationOp.drop item.tomato,
        stationOp.work].foldl choppingBoard.step
        (newChoppingBoard 42 10 (1 / 4) (some item.lettuce))).progress ∧
      ([stationOp.work, stationOp.pickUp, stationOp.drop item.tomato,
        stationOp.work].foldl choppingBoard.step
        (newChoppingBoard 42 10 (1 / 4) (some item.lettuce))).progress < 1) ∧
    (newChoppingBoard 42 10 (9007199254740969 / 9007199254740992)
      (some item.lettuce)).work.progress = 0 :=
  ⟨by decide!,
    (progress_invariant 42 10 (1 / 4) (some item.lettuce)
      [stationOp.work, stationOp.pickUp, stationOp.drop item.tomato, stationOp.work]
      (by decide!) (by decide!)).1,
    (progress_invariant 42 10 (1 / 4) (some item.lettuce) [] (by decide!) (by decide!)).2.2.2.2.1
      (newChoppingBoard 42 10 (9007199254740969 / 9007199254740992) (some item.lettuce))
      (by decide!)⟩

/-! ## The interaction resolver: `getNearbyTile` -/

/-- Invariant of the loop of `getNearbyTile`: either no remaining station is closer than
the current `closestDist` and the current `closest` is returned, or the result is the
first of the remaining stations at the least distance, and that distance is below
`closestDist`. -/
theorem getNearbyTile_loop_spec (x y : float64) (rest : List tile) (idx : ℕ)
    (closestDist : float64) (closest : Option (ℕ × tile)) :
    (getNearbyTile.loop x y rest idx closestDist closest = closest ∧
      ∀ t ∈ rest, ¬ tileDistance x y t < closestDist) ∨
    ∃ (k : ℕ) (t : tile), rest[k]? = some t ∧
      getNearbyTile.loop x y rest idx closestDist closest = some (idx + k, t) ∧
      tileDistance x y t < closestDist ∧
      (∀ (j : ℕ) (u : tile), rest[j]? = some u → tileDistance x y t ≤ tileDistance x y u) ∧
      (∀ (j : ℕ) (u : tile), rest[j]? = some u → j < k → tileDistance x y t < tileDistance x y u) := by
  induction rest generalizing idx closestDist closest with
  | nil => exact Or.inl ⟨rfl, by simp⟩
  | cons t ts ih =>
    by_cases hlt : tileDistance x y t < closestDist
    · have hstep : getNearbyTile.loop x y (t :: ts) idx closestDist closest =
          getNearbyTile.loop x y ts (idx + 1) (tileDistance x y t) (some (idx, t)) := by
        simp only [tileDistance] at hlt
        simp only [getNearbyTile.loop, tileDistance, hlt, if_true]
      rw [hstep]
      right
      rcases ih (idx + 1) (tileDistance x y t) (some (idx, t)) with ⟨hr, hall⟩ | ⟨k, u, hk, hr, hu, hmin, hfirst⟩
      · refine ⟨0, t, by simp, by simpa using hr, hlt, ?_, ?_⟩
        · intro j u hj
          cases j with
          | zero =>
            simp only [List.getElem?_cons_zero, Option.some.injEq] at hj
            subst hj
            exact le_refl _
          | succ j =>
            simp only [List.getElem?_cons_succ] at hj
            exact not_lt.1 (hall u (List.getElem?_mem hj))
        · intro j u _ hj
          exact absurd hj (Nat.not_lt_zero j)
      · refine ⟨k + 1, u, by simpa using hk, ?_, lt_trans hu hlt, ?_, ?_⟩
        · rw [hr]
          congr 2
          omega
        · intro j v hj
          cases j with
          | zero =>
            simp only [List.getElem?_cons_zero, Option.some.injEq] at hj
            subst hj
            exact hu.le
          | succ j =>
            simp only [List.getElem?_cons_succ] at hj
            exact hmin j v hj
        · intro j v hj hjk
          cases j with
          | zero =>
            simp only [List.getElem?_cons_zero, Option.some.injEq] at hj
            subst hj
            exact hu
          | succ j =>
            simp only [List.getElem?_cons_succ] at hj
            exact hfirst j v hj (by omega)
    · have hstep : getNearbyTile.loop x y (t :: ts) idx closestDist closest =
          getNearbyTile.loop x y ts (idx + 1) closestDist closest := by
        simp only [tileDistance] at hlt
        simp only [getNearbyTile.loop, tileDistance, hlt, if_false]
      rw [hstep]
      rcases ih (idx + 1) closestDist closest with ⟨hr, hall⟩ | ⟨k, u, hk, hr, hu, hmin, hfirst⟩
      · left
        refine ⟨hr, ?_⟩
        intro v hv
        rcases List.mem_cons.1 hv with rfl | hv
        · exact hlt
        · exact hall v hv
      · right
        refine ⟨k + 1, u, by simpa using hk, ?_, hu, ?_, ?_⟩
        · rw [hr]
          congr 2
          omega
        · intro j v hj
          cases j with
          | zero =>
            simp only [List.getElem?_cons_zero, Option.some.injEq] at hj
            subst hj
            exact (lt_of_lt_of_le hu (not_lt.1 hlt)).le
          | succ j =>
            simp only [List.getElem?_cons_succ] at hj
            exact hmin j v hj
        · intro j v hj hjk
          cases j with
          | zero =>
            simp only [List.getElem?_cons_zero, Option.some.injEq] at hj
            subst hj
            exact lt_of_lt_of_le hu (not_lt.1 hlt)
          | succ j =>
            simp only [List.getElem?_cons_succ] at hj
            exact hfirst j v hj (by omega)

/-- C9 fails as stated, because the distances compared are rounded float64 values. The
station at (4, 8 - 2^-49) has its position at Euclidean distance less than 20 from
(0, 0), yet its computed distance is 20 and `getNearbyTile` with radius 20 returns none;
and with radius 25 the station at (4, 8), listed first, is returned although the second
station is strictly nearer: both computed distances are 20. -/
theorem getNearbyTile_rounds_distance :
    round64 (4503599627370495 / 562949953421312) = 4503599627370495 / 562949953421312 ∧
    sqDistance 0 0 (tile.wall ⟨⟨4, 4503599627370495 / 562949953421312⟩⟩) < 20 ^ 2 ∧
    tileDistance 0 0 (tile.wall ⟨⟨4, 4503599627370495 / 562949953421312⟩⟩) = 20 ∧
    getNearbyTile [tile.wall ⟨⟨4, 4503599627370495 / 562949953421312⟩⟩] 0 0 20 = none ∧
    sqDistance 0 0 (tile.wall ⟨⟨4, 4503599627370495 / 562949953421312⟩⟩) <
      sqDistance 0 0 (tile.wall ⟨⟨4, 8⟩⟩) ∧
    getNearbyTile [tile.wall ⟨⟨4, 8⟩⟩,
      tile.wall ⟨⟨4, 4503599627370495 / 562949953421312⟩⟩] 0 0 25 =
        some (0, tile.wall ⟨⟨4, 8⟩⟩) := by
  decide!

/-- C9 as amended: `getNearbyTile` returns none iff no station is at a distance (the
float64 value `getDistance` computes from the query point to the station's
`getPosition`) strictly below `maxDist`; otherwise it returns a station of the list, with its index, whose distance is
strictly below `maxDist`, is the least among all stations, and is strictly less than that
of every station at a smaller index. -/
theorem getNearbyTile_spec (tiles : List tile) (x y maxDist : float64) :
    (getNearbyTile tiles x y maxDist = none ↔
      ∀ t ∈ tiles, ¬ tileDistance x y t < maxDist) ∧
    (∀ (i : ℕ) (t : tile), getNearbyTile tiles x y maxDist = some (i, t) →
      tiles[i]? = some t ∧ tileDistance x y t < maxDist ∧
      (∀ (j : ℕ) (u : tile), tiles[j]? = some u → tileDistance x y t ≤ tileDistance x y u) ∧
      (∀ (j : ℕ) (u : tile), tiles[j]? = some u → j < i → tileDistance x y t < tileDistance x y u)) := by
  unfold getNearbyTile
  rcases getNearbyTile_loop_spec x y tiles 0 maxDist none with
    ⟨hr, hall⟩ | ⟨k, u, hk, hr, hu, hmin, hfirst⟩
  · refine ⟨⟨fun _ => hall, fun _ => hr⟩, ?_⟩
    intro i t h
    rw [hr] at h
    exact Option.noConfusion h
  · refine ⟨⟨?_, ?_⟩, ?_⟩
    · intro h
      rw [hr] at h
      exact Option.noConfusion h
    · intro h
      exact absurd hu (h u (List.getElem?_mem hk))
    · intro i t h
      rw [hr, Option.some.injEq, Prod.mk.injEq] at h
      obtain ⟨hi, rfl⟩ := h
      rw [Nat.zero_add] at hi
      subst hi
      exact ⟨hk, hu, hmin, hfirst⟩

/-- C9 as amended, at concrete inputs, in the station layout: from (74, 34) the counters at index 10
and at index 11 are both at distance exactly 8 and the one at index 10 is returned; from
(18, 54) the nearest station, the counter at index 7, is at distance exactly
20 = `maxWorkDist` and nothing is returned. -/
theorem getNearbyTile_spec_witness :
    getNearbyTile initialTiles 74 34 maxWorkDist =
      some (10, tile.counter ⟨⟨58, 26⟩, some item.tomato⟩) ∧
    tileDistance 74 34 (tile.counter ⟨⟨58, 26⟩, some item.tomato⟩) = 8 ∧
    tileDistance 74 34 (tile.counter ⟨⟨74, 26⟩, some item.choppedTomato⟩) = 8 ∧
    (tileDistance 74 34 (tile.counter ⟨⟨58, 26⟩, some item.tomato⟩) < maxWorkDist ∧
      ∀ (j : ℕ) (u : tile), initialTiles[j]? = some u → j < 10 →
        tileDistance 74 34 (tile.counter ⟨⟨58, 26⟩, some item.tomato⟩) <
          tileDistance 74 34 u) ∧
    tileDistance 18 54 (tile.counter ⟨⟨10, 26⟩, some saladPlate⟩) = 20 ∧
    getNearbyTile initialTiles 18 54 maxWorkDist = none :=
  ⟨by decide!, by decide!, by decide!,
    ⟨((getNearbyTile_spec initialTiles 74 34 maxWorkDist).2 10 _ (by decide!)).2.1,
      ((getNearbyTile_spec initialTiles 74 34 maxWorkDist).2 10 _ (by decide!)).2.2.2⟩,
    by decide!, by decide!⟩

/-! ## Movement -/

theorem foldl_collideTile_of_noTileInRange (d pos : float64 × float64) (tiles : List tile)
    (h : noTileInRange pos tiles) : tiles.foldl (collideTile d) pos = pos := by
  induction tiles with
  | nil => rfl
  | cons t ts ih =>
    have ht : collideTile d pos t = pos := by
      have := h t (List.mem_cons_self t ts)
      simp only [collideTile, gt_iff_lt, this, if_true]
    rw [List.foldl_cons, ht]
    exact ih (fun u hu => h u (List.mem_cons_of_mem t hu))

theorem foldl_collidePlayer_of_forall (d pos : float64 × float64) (self : ℕ)
    (others : List (ℕ × player))
    (h : ∀ o ∈ others, o.1 ≠ self → ¬ getDistance pos.1 pos.2 o.2.x o.2.y < 16) :
    others.foldl (collidePlayer d self) pos = pos := by
  induction others with
  | nil => rfl
  | cons o os ih =>
    have ho : collidePlayer d self pos o = pos := by
      unfold collidePlayer
      by_cases hself : o.1 = self
      · simp [hself]
      · simp [hself, h o (List.mem_cons_self o os) hself]
    rw [List.foldl_cons, ho]
    exact ih (fun u hu => h u (List.mem_cons_of_mem o hu))

/-- With no obstacle in range, the movement part of `player.work` adds the displacement
`stepOf inp` to the position. -/
theorem move_of_no_obstacle (p : player) (self : ℕ) (inp : input) (tiles : List tile)
    (players : List player)
    (ht : noTileInRange (fadd p.x (stepOf inp).1, fadd p.y (stepOf inp).2) tiles)
    (hp : noPlayerInRange (fadd p.x (stepOf inp).1, fadd p.y (stepOf inp).2) self players) :
    p.move self inp tiles players = (fadd p.x (stepOf inp).1, fadd p.y (stepOf inp).2) := by
  unfold player.move
  simp only
  rw [foldl_collideTile_of_noTileInRange _ _ _ ht]
  exact foldl_collidePlayer_of_forall _ _ _ _ hp

/-- C10 fails as stated: for the first player of the roster, with no obstacle in range,
the diagonal input (1, 1) adds the displacement (speed/2, speed/2) to the position and
the single-axis input (1, 0) adds (speed, 0); the squared length of the first is
speed²/2, not speed². -/
theorem diagonal_step_shorter :
    player.move ⟨100, 100, none, false⟩ 0 ⟨1, 1, false, false⟩ initialTiles initialPlayers =
      (fadd 100 (speed / 2), fadd 100 (speed / 2)) ∧
    player.move ⟨100, 100, none, false⟩ 0 ⟨1, 0, false, false⟩ initialTiles initialPlayers =
      (fadd 100 speed, fadd 100 0) ∧
    stepOf ⟨1, 1, false, false⟩ = (speed / 2, speed / 2) ∧
    stepOf ⟨1, 0, false, false⟩ = (speed, 0) ∧
    (stepOf ⟨1, 1, false, false⟩).1 ^ 2 + (stepOf ⟨1, 1, false, false⟩).2 ^ 2 = speed ^ 2 / 2 ∧
    (stepOf ⟨1, 1, false, false⟩).1 ^ 2 + (stepOf ⟨1, 1, false, false⟩).2 ^ 2 ≠
      (stepOf ⟨1, 0, false, false⟩).1 ^ 2 + (stepOf ⟨1, 0, false, false⟩).2 ^ 2 := by
  decide!

theorem stepOf_eq (h v : float64) (i w : Bool) :
    stepOf ⟨h, v, i, w⟩ = stepOf ⟨h, v, false, false⟩ := rfl

/-- C10 as amended: the input is normalised by the sum of the absolute values of its two
components. For a diagonal input (±1, ±1) the displacement is (±speed/2, ±speed/2): the
sum of the absolute values of its components is speed, as for a single-axis input
(±1, 0) or (0, ±1), whose displacement is (±speed, 0) or (0, ±speed); its squared
Euclidean length is speed²/2, half that of a single-axis step. With no obstacle in
range that displacement is what `player.work` adds to the position. Here speed is the
float64 nearest to 100/60. -/
theorem step_of_unit_input (h v : float64) (i w : Bool) (hh : h = 1 ∨ h = -1)
    (hv : v = 1 ∨ v = -1) :
    speed = round64 (100 / 60) ∧
    stepOf ⟨h, v, i, w⟩ = (h * (speed / 2), v * (speed / 2)) ∧
    stepOf ⟨h, 0, i, w⟩ = (h * speed, 0) ∧
    stepOf ⟨0, v, i, w⟩ = (0, v * speed) ∧
    |(stepOf ⟨h, v, i, w⟩).1| + |(stepOf ⟨h, v, i, w⟩).2| = speed ∧
    |(stepOf ⟨h, 0, i, w⟩).1| + |(stepOf ⟨h, 0, i, w⟩).2| = speed ∧
    |(stepOf ⟨0, v, i, w⟩).1| + |(stepOf ⟨0, v, i, w⟩).2| = speed ∧
    (stepOf ⟨h, v, i, w⟩).1 ^ 2 + (stepOf ⟨h, v, i, w⟩).2 ^ 2 = speed ^ 2 / 2 ∧
    (stepOf ⟨h, 0, i, w⟩).1 ^ 2 + (stepOf ⟨h, 0, i, w⟩).2 ^ 2 = speed ^ 2 ∧
    (stepOf ⟨0, v, i, w⟩).1 ^ 2 + (stepOf ⟨0, v, i, w⟩).2 ^ 2 = speed ^ 2 ∧
    (∀ (p : player) (self : ℕ) (tiles : List tile) (players : List player),
      noTileInRange (fadd p.x (h * (speed / 2)), fadd p.y (v * (speed / 2))) tiles →
      noPlayerInRange (fadd p.x (h * (speed / 2)), fadd p.y (v * (speed / 2))) self players →
      p.move self ⟨h, v, i, w⟩ tiles players =
        (fadd p.x (h * (speed / 2)), fadd p.y (v * (speed / 2)))) := by
  have key : stepOf ⟨h, v, i, w⟩ = (h * (speed / 2), v * (speed / 2)) ∧
      stepOf ⟨h, 0, i, w⟩ = (h * speed, 0) ∧ stepOf ⟨0, v, i, w⟩ = (0, v * speed) ∧
      |h * (speed / 2)| + |v * (speed / 2)| = speed ∧
      |h * speed| + |(0 : ℚ)| = speed ∧ |(0 : ℚ)| + |v * speed| = speed ∧
      (h * (speed / 2)) ^ 2 + (v * (speed / 2)) ^ 2 = speed ^ 2 / 2 ∧
      (h * speed) ^ 2 + (0 : ℚ) ^ 2 = speed ^ 2 ∧ (0 : ℚ) ^ 2 + (v * speed) ^ 2 = speed ^ 2 := by
    rw [stepOf_eq h v, stepOf_eq h 0, stepOf_eq 0 v]
    rcases hh with rfl | rfl <;> rcases hv with rfl | rfl <;> decide!
  obtain ⟨k1, k2, k3, k4, k5, k6, k7, k8, k9⟩ := key
  refine ⟨rfl, k1, k2, k3, ?_, ?_, ?_, ?_, ?_, ?_, ?_⟩
  · rw [k1]; exact k4
  · rw [k2]; exact k5
  · rw [k3]; exact k6
  · rw [k1]; exact k7
  · rw [k2]; exact k8
  · rw [k3]; exact k9
  · intro p self tiles players ht hp
    have := move_of_no_obstacle p self ⟨h, v, i, w⟩ tiles players
    rw [k1] at this
    exact this ht hp

/-- C10 as amended, at a concrete input: the first player of the roster in the station
layout, with the diagonal input (1, 1). -/
theorem step_of_unit_input_witness :
    noTileInRange (fadd 100 (1 * (speed / 2)), fadd 100 (1 * (speed / 2))) initialTiles ∧
    noPlayerInRange (fadd 100 (1 * (speed / 2)), fadd 100 (1 * (speed / 2))) 0
      initialPlayers ∧
    player.move ⟨100, 100, none, false⟩ 0 ⟨1, 1, false, false⟩ initialTiles initialPlayers =
      (fadd 100 (1 * (speed / 2)), fadd 100 (1 * (speed / 2))) ∧
    (stepOf ⟨1, 1, false, false⟩).1 ^ 2 + (stepOf ⟨1, 1, false, false⟩).2 ^ 2 = speed ^ 2 / 2 :=
  ⟨by unfold noTileInRange; decide!, by unfold noPlayerInRange; decide!,
    (step_of_unit_input 1 1 false false (Or.inl rfl) (Or.inl rfl)).2.2.2.2.2.2.2.2.2.2
      ⟨100, 100, none, false⟩ 0 initialTiles initialPlayers
      (by unfold noTileInRange; decide!) (by unfold noPlayerInRange; decide!),
    (step_of_unit_input 1 1 false false (Or.inl rfl) (Or.inl rfl)).2.2.2.2.2.2.2.1⟩

/-! ## Item capabilities -/

/-- C12: `canCombine()` is true iff the item is a chopped tomato or a chopped lettuce; it
is false for a raw tomato, a raw lettuce, a dirty plate and every clean plate. -/
theorem canCombine_iff_chopped (i : item) :
    (i.canCombine = true ↔ i = item.choppedTomato ∨ i = item.choppedLettuce) ∧
    item.tomato.canCombine = false ∧ item.lettuce.canCombine = false ∧
    item.dirtyPlate.canCombine = false ∧
    (∀ contents, (item.cleanPlate contents).canCombine = false) := by
  refine ⟨?_, rfl, rfl, rfl, fun _ => rfl⟩
  cases i <;> simp [item.canCombine]

/-- C13: `canCut()` is true exactly for a raw tomato and a raw lettuce, whose
`completeCut()` is a chopped tomato and a chopped lettuce; `canWash()` is true exactly
for the dirty plate, whose `completeWash()` is a clean plate with empty contents. (Both
calls only read their receiver: they return nothing but the new item.) -/
theorem cut_and_wash (i : item) :
    (i.canCut = true ↔ i = item.tomato ∨ i = item.lettuce) ∧
    item.tomato.completeCut = some item.choppedTomato ∧
    item.lettuce.completeCut = some item.choppedLettuce ∧
    (i.canWash = true ↔ i = item.dirtyPlate) ∧
    item.dirtyPlate.completeWash = some (item.cleanPlate []) := by
  refine ⟨?_, rfl, rfl, ?_, rfl⟩
  · cases i <;> simp [item.canCut]
  · cases i <;> simp [item.canWash]

/-! ## `newCleanPlate` -/

theorem newCleanPlate_loop_cons (contents : List (String × item)) (i : item)
    (rest : List item) :
    newCleanPlate.loop (item.cleanPlate contents) (i :: rest) =
      if i.canCombine = true ∧ contents.length < 3 ∧ mapHas contents i.name = false then
        newCleanPlate.loop (item.cleanPlate (contents ++ [(i.name, i)])) rest
      else none := by
  rw [newCleanPlate.loop, combine_cleanPlate]
  by_cases h : i.canCombine = true ∧ contents.length < 3 ∧ mapHas contents i.name = false
  · simp only [if_pos h]
  · simp only [if_neg h]

theorem newCleanPlate_loop_none (items : List item) (contents : List (String × item))
    (h : ∃ i ∈ items, i.canCombine = false) :
    newCleanPlate.loop (item.cleanPlate contents) items = none := by
  induction items generalizing contents with
  | nil => simp at h
  | cons i rest ih =>
    rw [newCleanPlate_loop_cons]
    split
    · rename_i hc
      obtain ⟨j, hj, hjc⟩ := h
      rcases List.mem_cons.1 hj with rfl | hj
      · rw [hc.1] at hjc
        exact Bool.noConfusion hjc
      · exact ih _ ⟨j, hj, hjc⟩
    · rfl

theorem newCleanPlate_loop_some (items : List item) (contents : List (String × item))
    (hc : ∀ i ∈ items, i.canCombine = true)
    (hn : (contents.map Prod.fst ++ items.map item.name).Nodup)
    (hl : contents.length + items.length ≤ 3) :
    newCleanPlate.loop (item.cleanPlate contents) items =
      some (item.cleanPlate (contents ++ items.map (fun i => (i.name, i)))) := by
  induction items generalizing contents with
  | nil => simp [newCleanPlate.loop]
  | cons i rest ih =>
    rw [newCleanPlate_loop_cons]
    have hlen : contents.length < 3 := by
      simp only [List.length_cons] at hl
      omega
    have hkey : mapHas contents i.name = false := by
      rw [mapHas_eq_false_iff]
      intro kv hkv hk
      rw [List.nodup_append] at hn
      exact hn.2.2 (List.mem_map.2 ⟨kv, hkv, hk⟩) (by simp)
    rw [if_pos ⟨hc i (List.mem_cons_self i rest), hlen, hkey⟩]
    rw [ih (contents ++ [(i.name, i)]) (fun j hj => hc j (List.mem_cons_of_mem i hj))]
    · simp
    · simpa using hn
    · simp only [List.length_append, List.length_cons, List.length_nil] at hl ⊢
      omega

/-- C14: `newCleanPlate(items)` panics (`none`) whenever `items` contains an item whose
`canCombine()` is false; when every item is combinable, the names are pairwise distinct
and there are at most 3 items, it returns the plate whose contents are exactly those
items, each keyed by its name. -/
theorem newCleanPlate_spec (items : List item) :
    ((∃ i ∈ items, i.canCombine = false) → newCleanPlate items = none) ∧
    ((∀ i ∈ items, i.canCombine = true) → (items.map item.name).Nodup →
      items.length ≤ 3 →
      newCleanPlate items = some (item.cleanPlate (items.map (fun i => (i.name, i))))) := by
  refine ⟨newCleanPlate_loop_none items [], ?_⟩
  intro hc hn hl
  have := newCleanPlate_loop_some items [] hc (by simpa using hn) (by simpa using hl)
  simpa [newCleanPlate] using this

/-- C14 at concrete inputs: a raw lettuce among the items makes the constructor panic;
the plate of the station layout is built from a chopped lettuce and a chopped tomato. -/
theorem newCleanPlate_spec_witness :
    newCleanPlate [item.choppedTomato, item.lettuce] = none ∧
    newCleanPlate [item.choppedLettuce, item.choppedTomato] =
      some (item.cleanPlate ([item.choppedLettuce, item.choppedTomato].map
        (fun i => (i.name, i)))) :=
  ⟨(newCleanPlate_spec [item.choppedTomato, item.lettuce]).1
      ⟨item.lettuce, by simp, rfl⟩,
    (newCleanPlate_spec [item.choppedLettuce, item.choppedTomato]).2
      (by decide!) (by decide!) (by decide!)⟩

/-! ## Trash, counter, and occupied boards and sinks -/

/-- C15: `trash.drop(i)` empties a clean plate and returns false, refuses a dirty plate
and leaves it as it is, and returns true for a raw or chopped tomato or lettuce;
`trash.pickUp` always returns none (and leaves the trash as it is). -/
theorem trash_spec (t : trash) :
    (∀ contents, t.drop (item.cleanPlate contents) = (false, item.cleanPlate [])) ∧
    t.drop item.dirtyPlate = (false, item.dirtyPlate) ∧
    (t.drop item.tomato).1 = true ∧ (t.drop item.choppedTomato).1 = true ∧
    (t.drop item.lettuce).1 = true ∧ (t.drop item.choppedLettuce).1 = true ∧
    t.pickUp = none ∧ tile.pickUp (tile.trash t) = (none, tile.trash t) := by
  refine ⟨fun _ => rfl, ?_, ?_, ?_, ?_, ?_, rfl, rfl⟩ <;> simp [trash.drop, item.name]

/-- C16: `counter.pickUp` returns the held item and leaves the counter empty, or returns
none and changes nothing when the counter is empty; `counter.drop(i)` on an empty counter
stores `i` and returns true; on an occupied counter it returns what `held.combine(i)`
returns and keeps the held item (as that call left it), so it succeeds only when the held
item is a clean plate that accepts `i`, and a refused drop changes nothing. -/
theorem counter_spec (c : counter) (i : item) :
    (∀ held, c.contents = some held →
      c.pickUp = (some held, { c with contents := none })) ∧
    (c.contents = none → c.pickUp = (none, c)) ∧
    (c.contents = none → c.drop i = (true, { c with contents := some i })) ∧
    (∀ held, c.contents = some held →
      (c.drop i).1 = (held.combine i).1 ∧
      (c.drop i).2 = { c with contents := some (held.combine i).2 } ∧
      ((c.drop i).1 = true →
        ∃ contents, held = item.cleanPlate contents ∧ i.canCombine = true ∧
          contents.length < 3 ∧ (∀ kv ∈ contents, kv.1 ≠ i.name) ∧
          (c.drop i).2.contents = some (item.cleanPlate (contents ++ [(i.name, i)]))) ∧
      ((c.drop i).1 = false → (c.drop i).2 = c)) := by
  refine ⟨?_, ?_, ?_, ?_⟩
  · intro held h
    simp only [counter.pickUp, h]
  · intro h
    simp only [counter.pickUp, h]
  · intro h
    simp only [counter.drop, h]
  · intro held h
    have hd : c.drop i = ((held.combine i).1, { c with contents := some (held.combine i).2 }) := by
      simp only [counter.drop, h]
    refine ⟨by rw [hd], by rw [hd], ?_, counter_drop_false c i⟩
    intro hok
    rw [hd] at hok ⊢
    cases held with
    | cleanPlate contents =>
      rw [combine_cleanPlate] at hok ⊢
      by_cases hc : i.canCombine = true ∧ contents.length < 3 ∧
          mapHas contents i.name = false
      · rw [if_pos hc]
        exact ⟨contents, rfl, hc.1, hc.2.1, (mapHas_eq_false_iff _ _).1 hc.2.2, rfl⟩
      · rw [if_neg hc] at hok
        exact Bool.noConfusion hok
    | _ => exact Bool.noConfusion hok

/-- C16 at concrete inputs: the counters of the station layout that hold the plate and a
raw lettuce. -/
theorem counter_spec_witness :
    counter.pickUp ⟨⟨26, 26⟩, some item.lettuce⟩ = (some item.lettuce, ⟨⟨26, 26⟩, none⟩) ∧
    counter.drop ⟨⟨106, 26⟩, none⟩ item.tomato = (true, ⟨⟨106, 26⟩, some item.tomato⟩) ∧
    (counter.drop ⟨⟨26, 26⟩, some item.lettuce⟩ item.choppedTomato).1 = false ∧
    (counter.drop ⟨⟨26, 26⟩, some item.lettuce⟩ item.choppedTomato).2 =
      ⟨⟨26, 26⟩, some item.lettuce⟩ ∧
    (counter.drop ⟨⟨10, 26⟩, some (item.cleanPlate [])⟩ item.choppedTomato).1 = true ∧
    ∃ contents, item.cleanPlate [] = item.cleanPlate contents ∧
      item.choppedTomato.canCombine = true ∧ contents.length < 3 ∧
      (∀ kv ∈ contents, kv.1 ≠ item.choppedTomato.name) ∧
      (counter.drop ⟨⟨10, 26⟩, some (item.cleanPlate [])⟩ item.choppedTomato).2.contents =
        some (item.cleanPlate (contents ++ [(item.choppedTomato.name, item.choppedTomato)])) :=
  ⟨(counter_spec ⟨⟨26, 26⟩, some item.lettuce⟩ item.tomato).1 item.lettuce rfl,
    (counter_spec ⟨⟨106, 26⟩, none⟩ item.tomato).2.2.1 rfl,
    by decide!,
    ((counter_spec ⟨⟨26, 26⟩, some item.lettuce⟩ item.choppedTomato).2.2.2
      item.lettuce rfl).2.2.2 (by decide!),
    by decide!,
    ((counter_spec ⟨⟨10, 26⟩, some (item.cleanPlate [])⟩ item.choppedTomato).2.2.2
      (item.cleanPlate []) rfl).2.2.1 (by decide!)⟩

theorem combine_of_not_canCombine (p i : item) (h : i.canCombine = false) :
    p.combine i = (false, p) := by
  cases p with
  | cleanPlate c =>
    rw [combine_cleanPlate, if_neg]
    rw [h]
    simp
  | _ => rfl

theorem canCombine_of_canCut (i : item) (h : i.canCut = true) : i.canCombine = false := by
  cases i <;> simp_all [item.canCut, item.canCombine]

theorem canCombine_of_canWash (i : item) (h : i.canWash = true) : i.canCombine = false := by
  cases i <;> simp_all [item.canWash, item.canCombine]

/-- C20: `drop(i)` on a cutting board or a sink that already holds an item returns false
and leaves the station (held item with its contents, progress) as it was, whatever the
held item and whatever `i`: an item that passes the `canCut` (or `canWash`) gate has
`canCombine()` false, and an item with `canCombine()` false is refused by every
`combine`, which then changes nothing. -/
theorem occupied_drop_fails (i held : item) :
    (∀ cb : choppingBoard, cb.contents = some held → cb.drop i = (false, cb)) ∧
    (∀ s : sink, s.contents = some held → s.drop i = (false, s)) ∧
    (i.canCut = true → i.canCombine = false) ∧
    (i.canWash = true → i.canCombine = false) ∧
    (i.canCombine = false → ∀ p : item, p.combine i = (false, p)) := by
  refine ⟨?_, ?_, canCombine_of_canCut i, canCombine_of_canWash i,
    fun h p => combine_of_not_canCombine p i h⟩
  · intro cb h
    unfold choppingBoard.drop
    cases hcut : i.canCut with
    | false => simp
    | true =>
      simp only [h, Bool.not_true, Bool.false_eq_true, if_false,
        combine_of_not_canCombine held i (canCombine_of_canCut i hcut)]
      rw [← h]
  · intro s h
    unfold sink.drop
    cases hw : i.canWash with
    | false => simp
    | true =>
      simp only [h, Bool.not_true, Bool.false_eq_true, if_false,
        combine_of_not_canCombine held i (canCombine_of_canWash i hw)]
      rw [← h]

/-- C20 at concrete inputs: the cutting board and the sink of the station layout refuse a
raw tomato and a dirty plate; a board holding an empty clean plate refuses a raw
tomato. -/
theorem occupied_drop_fails_witness :
    (newChoppingBoard 42 10 (1 / 4) (some item.lettuce)).drop item.tomato =
      (false, newChoppingBoard 42 10 (1 / 4) (some item.lettuce)) ∧
    (newSink 106 10 (1 / 4) (some item.dirtyPlate)).drop item.dirtyPlate =
      (false, newSink 106 10 (1 / 4) (some item.dirtyPlate)) ∧
    (newChoppingBoard 42 10 0 (some (item.cleanPlate []))).drop item.tomato =
      (false, newChoppingBoard 42 10 0 (some (item.cleanPlate []))) ∧
    item.tomato.canCombine = false :=
  ⟨(occupied_drop_fails item.tomato item.lettuce).1 _ rfl,
    (occupied_drop_fails item.dirtyPlate item.dirtyPlate).2.1 _ rfl,
    (occupied_drop_fails item.tomato (item.cleanPlate [])).1 _ rfl,
    (occupied_drop_fails item.tomato item.lettuce).2.2.1 rfl⟩

/-! ## The owed dirty plates -/

theorem wrapInt64_add (a b : ℤ) : wrapInt64 (wrapInt64 a + b) = wrapInt64 (a + b) := by
  unfold wrapInt64
  omega

theorem wrapInt64_pred (a : ℤ) (h : wrapInt64 a > 0) :
    wrapInt64 a - 1 = wrapInt64 (a - 1) := by
  unfold wrapInt64 at h ⊢
  omega

theorem exit_drop_numDirty (e : exit) (i : item) (orders : List (List item)) :
    (e.drop i orders).2.1.numDirty =
      if (e.drop i orders).1 = true then wrapInt64 (e.numDirty + 1) else e.numDirty := by
  cases i with
  | cleanPlate c =>
    unfold exit.drop
    cases hf : orders.findIdx? (fun order => orderMatches order (plateContents c)) <;>
      simp [hf]
  | _ => rfl

theorem exitTrace_step_inv (s : exitTrace) (op : exitOp)
    (h : s.e.numDirty = wrapInt64 ((s.delivered : ℤ) - (s.handedOut : ℤ)) ∧
      s.handedOut ≤ s.delivered) :
    (s.step op).e.numDirty =
        wrapInt64 (((s.step op).delivered : ℤ) - ((s.step op).handedOut : ℤ)) ∧
      (s.step op).handedOut ≤ (s.step op).delivered := by
  obtain ⟨h1, h2⟩ := h
  cases op with
  | pickUp =>
    simp only [exitTrace.step, exit.pickUp]
    by_cases hpos : s.e.numDirty > 0
    · simp only [hpos, if_true, reduceCtorEq, if_false]
      rw [h1] at hpos ⊢
      constructor
      · rw [wrapInt64_pred _ hpos]
        congr 1
        push_cast
        ring
      · unfold wrapInt64 at hpos
        omega
    · simp only [hpos, if_false, if_true]
      exact ⟨h1, h2⟩
  | drop i orders =>
    simp only [exitTrace.step, exit_drop_numDirty]
    by_cases hok : (s.e.drop i orders).1 = true
    · simp only [hok, if_true]
      constructor
      · rw [h1, wrapInt64_add]
        congr 1
        push_cast
        ring
      · omega
    · simp only [hok, if_false]
      exact ⟨h1, h2⟩

theorem exitTrace_foldl_inv (ops : List exitOp) (s : exitTrace)
    (h : s.e.numDirty = wrapInt64 ((s.delivered : ℤ) - (s.handedOut : ℤ)) ∧
      s.handedOut ≤ s.delivered) :
    (ops.foldl exitTrace.step s).e.numDirty =
        wrapInt64 (((ops.foldl exitTrace.step s).delivered : ℤ) -
          ((ops.foldl exitTrace.step s).handedOut : ℤ)) ∧
      (ops.foldl exitTrace.step s).handedOut ≤ (ops.foldl exitTrace.step s).delivered := by
  induction ops generalizing s with
  | nil => exact h
  | cons op rest ih => exact ih _ (exitTrace_step_inv s op h)

/-- Every exit accepts the plate of the station layout against the initial ledger. -/
theorem exit_drop_saladPlate (e : exit) : (e.drop saladPlate initialOrders).1 = true := by
  rw [initialOrders, saladPlate, exit_drop_single]
  decide!

/-- The exit after `n` accepted deliveries in a row. -/
theorem exitTrace_accepted_drops (n : ℕ) (s : exitTrace)
    (hr : wrapInt64 s.e.numDirty = s.e.numDirty) :
    ((List.replicate n (exitOp.drop saladPlate initialOrders)).foldl exitTrace.step
        s).e.numDirty = wrapInt64 (s.e.numDirty + (n : ℤ)) := by
  induction n generalizing s with
  | zero =>
    rw [List.replicate_zero, List.foldl_nil, Nat.cast_zero, add_zero, hr]
  | succ n ih =>
    have hstep : (s.step (exitOp.drop saladPlate initialOrders)).e.numDirty =
        wrapInt64 (s.e.numDirty + 1) := by
      simp only [exitTrace.step, exit_drop_numDirty, exit_drop_saladPlate, if_true]
    have hr1 : wrapInt64 (s.step (exitOp.drop saladPlate initialOrders)).e.numDirty =
        (s.step (exitOp.drop saladPlate initialOrders)).e.numDirty := by
      rw [hstep]
      unfold wrapInt64
      omega
    rw [List.replicate_succ, List.foldl_cons, ih _ hr1, hstep, wrapInt64_add]
    congr 1
    push_cast
    ring

/-- C17 fails as stated: after the 2^63 accepted deliveries of this sequence, starting
from `newExit`, `numDirty` is the smallest `int`, a negative number. -/
theorem numDirty_negative_after_wrap :
    ((List.replicate 9223372036854775808
      (exitOp.drop saladPlate initialOrders)).foldl exitTrace.step
        ⟨newExit 90 10, 0, 0⟩).e.numDirty = -9223372036854775808 ∧
    (-9223372036854775808 : ℤ) < 0 := by
  refine ⟨?_, by decide⟩
  rw [exitTrace_accepted_drops 9223372036854775808 ⟨newExit 90 10, 0, 0⟩ (by decide)]
  decide

/-- C17 as amended: `exit.pickUp` with `numDirty > 0` lowers `numDirty` by one and returns
a dirty plate; with `numDirty = 0` it returns none and leaves the exit as it is. After
any sequence of `exit.pickUp` and `exit.drop` calls starting from `newExit`, the dirty
plates handed out never outnumber the accepted deliveries, and `numDirty` is the number
of deliveries not yet handed out, wrapped as a 64-bit `int`: as long as that number is
below 2^63, `numDirty` equals it and is not negative. -/
theorem exit_pickUp_spec (x y : float64) (ops : List exitOp) :
    (∀ e : exit, e.numDirty > 0 →
      e.pickUp = (some item.dirtyPlate, { e with numDirty := e.numDirty - 1 })) ∧
    (∀ e : exit, e.numDirty = 0 → e.pickUp = (none, e)) ∧
    (ops.foldl exitTrace.step ⟨newExit x y, 0, 0⟩).handedOut ≤
      (ops.foldl exitTrace.step ⟨newExit x y, 0, 0⟩).delivered ∧
    (ops.foldl exitTrace.step ⟨newExit x y, 0, 0⟩).e.numDirty =
      wrapInt64 (((ops.foldl exitTrace.step ⟨newExit x y, 0, 0⟩).delivered : ℤ) -
        ((ops.foldl exitTrace.step ⟨newExit x y, 0, 0⟩).handedOut : ℤ)) ∧
    (((ops.foldl exitTrace.step ⟨newExit x y, 0, 0⟩).delivered : ℤ) -
        ((ops.foldl exitTrace.step ⟨newExit x y, 0, 0⟩).handedOut : ℤ) <
          9223372036854775808 →
      0 ≤ (ops.foldl exitTrace.step ⟨newExit x y, 0, 0⟩).e.numDirty ∧
      (ops.foldl exitTrace.step ⟨newExit x y, 0, 0⟩).e.numDirty =
        ((ops.foldl exitTrace.step ⟨newExit x y, 0, 0⟩).delivered : ℤ) -
          ((ops.foldl exitTrace.step ⟨newExit x y, 0, 0⟩).handedOut : ℤ)) := by
  have h := exitTrace_foldl_inv ops ⟨newExit x y, 0, 0⟩
    ⟨by simp [newExit, wrapInt64], le_refl 0⟩
  refine ⟨?_, ?_, h.2, h.1, ?_⟩
  · intro e he
    simp only [exit.pickUp, he, if_true]
  · intro e he
    simp only [exit.pickUp, he, gt_iff_lt, lt_self_iff_false, if_false]
  · intro hlt
    have h2 := h.2
    have hw := wrapInt64_of_range _
      (show -9223372036854775808 ≤
        ((ops.foldl exitTrace.step ⟨newExit x y, 0, 0⟩).delivered : ℤ) -
          ((ops.foldl exitTrace.step ⟨newExit x y, 0, 0⟩).handedOut : ℤ) by omega) hlt
    rw [h.1, hw]
    exact ⟨by omega, rfl⟩

/-- C17 as amended, at a concrete input: a pick-up before any delivery, a delivery of the
plate of the station layout, two pick-ups. -/
theorem exit_pickUp_spec_witness :
    ((2 : ℤ) > 0 ∧ exit.pickUp ⟨⟨90, 10⟩, 2⟩ = (some item.dirtyPlate, ⟨⟨90, 10⟩, 1⟩)) ∧
    exit.pickUp (newExit 90 10) = (none, newExit 90 10) ∧
    ([exitOp.pickUp, exitOp.drop saladPlate initialOrders, exitOp.pickUp,
      exitOp.pickUp].foldl exitTrace.step ⟨newExit 90 10, 0, 0⟩).handedOut = 1 ∧
    0 ≤ ([exitOp.pickUp, exitOp.drop saladPlate initialOrders, exitOp.pickUp,
      exitOp.pickUp].foldl exitTrace.step ⟨newExit 90 10, 0, 0⟩).e.numDirty :=
  ⟨⟨by decide, (exit_pickUp_spec 90 10 []).1 ⟨⟨90, 10⟩, 2⟩ (by decide)⟩,
    (exit_pickUp_spec 90 10 []).2.1 (newExit 90 10) rfl, by decide!,
    ((exit_pickUp_spec 90 10 [exitOp.pickUp, exitOp.drop saladPlate initialOrders,
      exitOp.pickUp, exitOp.pickUp]).2.2.2.2 (by decide!)).1⟩

/-! ## The bounded ledger -/

theorem replenish_length (orders : List (List item)) (draw1 draw2 : ℕ) :
    ((replenish orders draw1 draw2).length = orders.length ∨
      (replenish orders draw1 draw2).length = orders.length + 1) ∧
    (5 ≤ orders.length → replenish orders draw1 draw2 = orders) := by
  unfold replenish
  constructor
  · split
    · split
      · split
        · right
          simp
        · left
          rfl
      · left
        rfl
    · left
      rfl
  · intro h
    rw [if_neg (by omega)]

theorem exit_drop_orders_length (e : exit) (i : item) (orders : List (List item)) :
    (e.drop i orders).2.2.length ≤ orders.length := by
  cases i with
  | cleanPlate c =>
    unfold exit.drop
    cases hf : orders.findIdx? (fun order => orderMatches order (plateContents c)) with
    | none => simp [hf]
    | some oi =>
      simp only [hf, List.length_append, List.length_take, List.length_drop]
      omega
  | _ => exact le_refl _

theorem tile_drop_orders_length (t : tile) (i : item) (orders : List (List item)) :
    (t.drop i orders).orders.length ≤ orders.length := by
  cases t with
  | exit e => exact exit_drop_orders_length e i orders
  | _ => exact le_refl _

theorem interact_orders_length (p : player) (tiles : List tile) (orders : List (List item)) :
    (p.interact tiles orders).orders.length ≤ orders.length := by
  unfold player.interact
  split
  · exact le_refl _
  · split
    · exact le_refl _
    · exact tile_drop_orders_length _ _ _

theorem work_orders_length (p : player) (self : ℕ) (inp : input) (tiles : List tile)
    (players : List player) (orders : List (List item)) :
    (p.work self inp tiles players orders).orders.length ≤ orders.length := by
  unfold player.work
  simp only [apply_ite workResult.orders, ite_self]
  split
  · exact interact_orders_length _ tiles orders
  · exact le_refl _

theorem workPlayer_orders_length (inputs : ℕ → input) (w : world) (k : ℕ) :
    (update.workPlayer inputs w k).orders.length ≤ w.orders.length := by
  unfold update.workPlayer
  split
  · exact le_refl _
  · exact work_orders_length _ _ _ _ _ _

theorem foldl_workPlayer_orders_length (inputs : ℕ → input) (ks : List ℕ) (w : world) :
    (ks.foldl (update.workPlayer inputs) w).orders.length ≤ w.orders.length := by
  induction ks generalizing w with
  | nil => exact le_refl _
  | cons k rest ih =>
    exact le_trans (ih _) (workPlayer_orders_length inputs w k)

theorem ledgerOp_apply_length (w : world) (op : ledgerOp) (h : w.orders.length ≤ 5) :
    (op.apply w).orders.length ≤ 5 := by
  cases op with
  | update inputs draw1 draw2 =>
    simp only [ledgerOp.apply, CookingGame.update]
    have hw := foldl_workPlayer_orders_length inputs (List.range w.players.length) w
    have hr := replenish_length
      ((List.range w.players.length).foldl (update.workPlayer inputs) w).orders draw1 draw2
    by_cases h5 : 5 ≤
        ((List.range w.players.length).foldl (update.workPlayer inputs) w).orders.length
    · rw [hr.2 h5]
      omega
    · rcases hr.1 with hlen | hlen <;> omega
  | exitDrop e i =>
    simp only [ledgerOp.apply]
    exact le_trans (exit_drop_orders_length e i w.orders) h

/-- C18: the replenishment step of `update` appends at most one order, and none when the
ledger already holds 5 orders or more; starting from the initial globals (one pending
order), after any sequence of `update` ticks (whatever the inputs and the random draws)
and `exit.drop` calls the ledger holds at most 5 orders. -/
theorem ledger_bounded (ops : List ledgerOp) :
    (∀ (orders : List (List item)) (draw1 draw2 : ℕ),
      ((replenish orders draw1 draw2).length = orders.length ∨
        (replenish orders draw1 draw2).length = orders.length + 1) ∧
      (5 ≤ orders.length → replenish orders draw1 draw2 = orders)) ∧
    initialWorld.orders.length = 1 ∧
    (ops.foldl ledgerOp.apply initialWorld).orders.length ≤ 5 := by
  refine ⟨replenish_length, rfl, ?_⟩
  have key : ∀ (w : world), w.orders.length ≤ 5 →
      (ops.foldl ledgerOp.apply w).orders.length ≤ 5 := by
    induction ops with
    | nil => exact fun w h => h
    | cons op rest ih => exact fun w h => ih _ (ledgerOp_apply_length w op h)
  exact key initialWorld (by decide)

/-- C18 at a concrete input: a ledger of five orders is left alone by a tick whose first
draw is 0, a ledger of four is extended by one; two ticks with idle controllers and a
first draw of 0. -/
theorem ledger_bounded_witness :
    replenish (initialOrders ++ threeOrders ++ initialOrders) 0 1 =
      initialOrders ++ threeOrders ++ initialOrders ∧
    replenish (initialOrders ++ threeOrders) 0 0 =
      initialOrders ++ threeOrders ++ [[item.choppedLettuce]] ∧
    replenish (initialOrders ++ threeOrders) 7 0 = initialOrders ++ threeOrders ∧
    ([ledgerOp.update (fun _ => ⟨0, 0, false, false⟩) 0 1,
      ledgerOp.update (fun _ => ⟨0, 0, false, false⟩) 0 0].foldl ledgerOp.apply
        initialWorld).orders.length ≤ 5 :=
  ⟨((ledger_bounded []).1 (initialOrders ++ threeOrders ++ initialOrders) 0 1).2 (by decide),
    by decide, by decide,
    (ledger_bounded [ledgerOp.update (fun _ => ⟨0, 0, false, false⟩) 0 1,
      ledgerOp.update (fun _ => ⟨0, 0, false, false⟩) 0 0]).2.2⟩

/-! ## Interacting with the nearest station -/

theorem round64_zero : round64 0 = 0 := by
  simp [round64]

theorem stepOf_zero (i w : Bool) : stepOf ⟨0, 0, i, w⟩ = (0, 0) := by
  simp [stepOf, direction, fmul, round64_zero]

theorem foldl_fixed {α β : Type} (f : β → α → β) (b : β) (l : List α)
    (h : ∀ a ∈ l, f b a = b) : l.foldl f b = b := by
  induction l with
  | nil => rfl
  | cons a rest ih =>
    rw [List.foldl_cons, h a (List.mem_cons_self a rest)]
    exact ih (fun c hc => h c (List.mem_cons_of_mem a hc))

theorem collideTile_zero (x y : float64) (t : tile) (hx : round64 x = x)
    (hy : round64 y = y) : collideTile (0, 0) (x, y) t = (x, y) := by
  have hsx : fsub x 0 = x := by simp [fsub, hx]
  have hsy : fsub y 0 = y := by simp [fsub, hy]
  unfold collideTile
  simp only [hsx, hsy, ite_self]

theorem collidePlayer_zero (x y : float64) (self : ℕ) (o : ℕ × player)
    (hx : round64 x = x) (hy : round64 y = y) :
    collidePlayer (0, 0) self (x, y) o = (x, y) := by
  unfold collidePlayer
  split
  · rfl
  · split
    · simp [fsub, hx, hy]
    · rfl

/-- Without movement the position of a player with float64 coordinates stays what it is,
whatever the obstacles. -/
theorem move_zero (p : player) (self : ℕ) (i w : Bool) (tiles : List tile)
    (players : List player) (hx : round64 p.x = p.x) (hy : round64 p.y = p.y) :
    p.move self ⟨0, 0, i, w⟩ tiles players = (p.x, p.y) := by
  unfold player.move
  simp only [stepOf_zero, fadd, add_zero, hx, hy]
  rw [foldl_fixed (collideTile (0, 0)) (p.x, p.y) tiles
    (fun t _ => collideTile_zero p.x p.y t hx hy)]
  exact foldl_fixed _ _ _ (fun o _ => collidePlayer_zero p.x p.y self o hx hy)

theorem set_of_getElem? {α : Type} (l : List α) (i : ℕ) (a : α) (h : l[i]? = some a) :
    l.set i a = l := by
  induction l generalizing i with
  | nil => rfl
  | cons b rest ih =>
    cases i with
    | zero =>
      simp only [List.getElem?_cons_zero, Option.some.injEq] at h
      simp [h]
    | succ i =>
      simp only [List.getElem?_cons_succ] at h
      simp [ih i h]

/-- The station that is within `maxDist`, at the least distance, and first among those at
that distance, is the one `getNearbyTile` returns. -/
theorem getNearbyTile_of_nearest (tiles : List tile) (x y maxDist : float64) (i : ℕ)
    (t : tile) (hi : tiles[i]? = some t) (hd : tileDistance x y t < maxDist)
    (hmin : ∀ u ∈ tiles, tileDistance x y t ≤ tileDistance x y u)
    (hfirst : ∀ u ∈ tiles.take i, tileDistance x y t < tileDistance x y u) :
    getNearbyTile tiles x y maxDist = some (i, t) := by
  unfold getNearbyTile
  rcases getNearbyTile_loop_spec x y tiles 0 maxDist none with
    ⟨_, hall⟩ | ⟨k, u, hk, hr, _, hkmin, hkfirst⟩
  · exact absurd hd (hall t (List.getElem?_mem hi))
  · rw [hr, Nat.zero_add]
    rcases Nat.lt_trichotomy k i with hlt | heq | hgt
    · have hu : u ∈ tiles.take i := by
        apply List.getElem?_mem (n := k)
        rw [List.getElem?_take_of_lt hlt]
        exact hk
      exact absurd (hfirst u hu) (not_lt.2 (hkmin i t hi))
    · subst heq
      rw [hk, Option.some.injEq] at hi
      rw [hi]
    · exact absurd (hkfirst i t hi hgt) (not_lt.2 (hmin u (List.getElem?_mem hk)))

/-- C19 fails as stated: in the station layout, a player at (49, -6) holding nothing has
its centre within 20 of the tomato tap, but the cutting board is nearer; a tick with
`interact` and no movement leaves the player holding the raw lettuce of the board. -/
theorem interact_near_tap_takes_lettuce :
    tileDistance (fadd 49 8) (fadd (-6) 8) (tile.tomatoSpawner ⟨⟨58, 10⟩⟩) < maxWorkDist ∧
    initialTiles[3]? = some (tile.tomatoSpawner ⟨⟨58, 10⟩⟩) ∧
    (player.work ⟨49, -6, none, false⟩ 0 ⟨0, 0, true, false⟩ initialTiles
      [⟨49, -6, none, false⟩, ⟨150, 150, none, false⟩, ⟨100, 150, none, false⟩]
      initialOrders).p.holding = some item.lettuce ∧
    (player.work ⟨49, -6, none, false⟩ 0 ⟨0, 0, true, false⟩ initialTiles
      [⟨49, -6, none, false⟩, ⟨150, 150, none, false⟩, ⟨100, 150, none, false⟩]
      initialOrders).p.holding ≠ some item.tomato := by
  decide!

/-- C19 as amended: for every empty-handed player (with float64 coordinates) such that a
tomato tap of the station list is at distance less than 20 (`maxWorkDist`) from the
centre (x+8, y+8), no station is nearer, and no station earlier in the list is equally
near, a tick with `interact` and no movement leaves the player holding a raw tomato, at
the same position, and leaves the station list (so the tap) and the ledger unchanged. -/
theorem interact_at_nearest_tap (p : player) (self : ℕ) (w : Bool) (tiles : List tile)
    (players : List player) (orders : List (List item)) (i : ℕ) (ts : tomatoSpawner)
    (hx : round64 p.x = p.x) (hy : round64 p.y = p.y) (hh : p.holding = none)
    (hi : tiles[i]? = some (tile.tomatoSpawner ts))
    (hd : tileDistance (fadd p.x 8) (fadd p.y 8) (tile.tomatoSpawner ts) < maxWorkDist)
    (hmin : ∀ u ∈ tiles, tileDistance (fadd p.x 8) (fadd p.y 8) (tile.tomatoSpawner ts) ≤
      tileDistance (fadd p.x 8) (fadd p.y 8) u)
    (hfirst : ∀ u ∈ tiles.take i,
      tileDistance (fadd p.x 8) (fadd p.y 8) (tile.tomatoSpawner ts) <
        tileDistance (fadd p.x 8) (fadd p.y 8) u) :
    (p.work self ⟨0, 0, true, w⟩ tiles players orders).p.holding = some item.tomato ∧
    (p.work self ⟨0, 0, true, w⟩ tiles players orders).tiles = tiles ∧
    (p.work self ⟨0, 0, true, w⟩ tiles players orders).orders = orders ∧
    (p.work self ⟨0, 0, true, w⟩ tiles players orders).p.x = p.x ∧
    (p.work self ⟨0, 0, true, w⟩ tiles players orders).p.y = p.y := by
  have hnear := getNearbyTile_of_nearest tiles (fadd p.x 8) (fadd p.y 8) maxWorkDist i
    (tile.tomatoSpawner ts) hi hd hmin hfirst
  have hset : tiles.set i (tile.tomatoSpawner ts) = tiles := set_of_getElem? tiles i _ hi
  have hint : ∀ b : Bool, player.interact ⟨p.x, p.y, p.holding, b⟩ tiles orders =
      ⟨⟨p.x, p.y, some item.tomato, b⟩, tiles, orders⟩ := by
    intro b
    simp only [player.interact, hnear, hh, tile.pickUp, tomatoSpawner.pickUp, hset]
  have hwork : ∀ q : player, q.x = p.x → q.y = p.y → q.doWork tiles = tiles := by
    intro q hqx hqy
    simp only [player.doWork, hqx, hqy, hnear, tile.work, hset]
  unfold player.work
  simp only [move_zero p self true w tiles players hx hy, and_self, if_true, hint]
  refine ⟨?_, ?_, ?_, ?_, ?_⟩
  · split <;> split <;> rfl
  · split
    · split
      · exact hwork _ rfl rfl
      · rfl
    · split
      · exact hwork _ rfl rfl
      · rfl
  · split <;> split <;> rfl
  · split <;> split <;> rfl
  · split <;> split <;> rfl

/-- C19 as amended, at a concrete input: in the station layout a player at (58, -8),
whose centre (66, 0) is straight above the tomato tap. -/
theorem interact_at_nearest_tap_witness :
    tileDistance (fadd 58 8) (fadd (-8) 8) (tile.tomatoSpawner ⟨⟨58, 10⟩⟩) < maxWorkDist ∧
    (player.work ⟨58, -8, none, false⟩ 0 ⟨0, 0, true, false⟩ initialTiles initialPlayers
      initialOrders).p.holding = some item.tomato ∧
    (player.work ⟨58, -8, none, false⟩ 0 ⟨0, 0, true, false⟩ initialTiles initialPlayers
      initialOrders).tiles = initialTiles :=
  ⟨by decide!,
    (interact_at_nearest_tap ⟨58, -8, none, false⟩ 0 false initialTiles initialPlayers
      initialOrders 3 ⟨⟨58, 10⟩⟩ (by decide!) (by decide!) rfl (by decide!) (by decide!)
      (by decide!) (by decide!)).1,
    (interact_at_nearest_tap ⟨58, -8, none, false⟩ 0 false initialTiles initialPlayers
      initialOrders 3 ⟨⟨58, 10⟩⟩ (by decide!) (by decide!) rfl (by decide!) (by decide!)
      (by decide!) (by decide!)).2.1⟩

/-! ## Collision veto -/

theorem collideTile_of_clear (d pos : float64 × float64) (t : tile)
    (h1 : ¬ tooClose pos t) (h2 : ¬ inFootprint pos t) : collideTile d pos t = pos := by
  unfold tooClose at h1
  unfold inFootprint at h2
  unfold collideTile
  simp only [h1, if_false, h2, ite_self]

theorem collideTile_of_not_veto (d pos : float64 × float64) (t : tile)
    (h : ¬ tileVetoes pos t) : collideTile d pos t = pos := by
  unfold tileVetoes at h
  by_cases hg : getDistance (fadd pos.1 8) (fadd pos.2 8) t.getPosition.1 t.getPosition.2 >
      fadd 8 (fsqrt (8 * 8 + 8 * 8))
  · unfold collideTile
    simp only [hg, if_true]
  · have h' := fun hc => h ⟨hg, hc⟩
    exact collideTile_of_clear d pos t (fun hc => h' (Or.inl hc)) (fun hc => h' (Or.inr hc))

theorem collideTile_of_veto (d pos : float64 × float64) (t : tile) (h : tileVetoes pos t)
    (hr : ¬ inFootprint (undoStep d pos) t) : collideTile d pos t = undoStep d pos := by
  obtain ⟨hg, hc⟩ := h
  unfold inFootprint undoStep at hr
  by_cases h1 : tooClose pos t
  · unfold tooClose at h1
    unfold collideTile undoStep
    simp only [hg, if_false, h1, if_true, hr]
  · have h2 : inFootprint pos t := hc.resolve_left h1
    unfold tooClose at h1
    unfold inFootprint at h2
    unfold collideTile undoStep
    simp only [hg, if_false, h1, h2, and_self, if_true]

theorem collidePlayer_of_not_veto (d pos : float64 × float64) (self : ℕ) (o : ℕ × player)
    (h : ¬ playerVetoes pos self o) : collidePlayer d self pos o = pos := by
  unfold playerVetoes at h
  unfold collidePlayer
  by_cases hs : o.1 = self
  · simp only [hs, if_true]
  · have : ¬ getDistance pos.1 pos.2 o.2.x o.2.y < 16 := fun hc => h ⟨hs, hc⟩
    simp only [hs, if_false, this]

theorem collidePlayer_of_veto (d pos : float64 × float64) (self : ℕ) (o : ℕ × player)
    (h : playerVetoes pos self o) : collidePlayer d self pos o = undoStep d pos := by
  unfold collidePlayer undoStep
  simp only [h.1, if_false, h.2, if_true]

theorem foldl_collideTile_veto (d pos r : float64 × float64) (tiles : List tile)
    (hr : r = undoStep d pos)
    (hclear : ∀ t ∈ tiles, ¬ tooClose r t ∧ ¬ inFootprint r t) :
    ((∃ t ∈ tiles, tileVetoes pos t) → tiles.foldl (collideTile d) pos = r) ∧
    ((∀ t ∈ tiles, ¬ tileVetoes pos t) → tiles.foldl (collideTile d) pos = pos) := by
  induction tiles with
  | nil => exact ⟨fun h => by simp at h, fun _ => rfl⟩
  | cons t ts ih =>
    have hts : ∀ u ∈ ts, ¬ tooClose r u ∧ ¬ inFootprint r u :=
      fun u hu => hclear u (List.mem_cons_of_mem t hu)
    have ih' := ih hts
    by_cases hv : tileVetoes pos t
    · have hstep : collideTile d pos t = r := by
        rw [hr]
        apply collideTile_of_veto d pos t hv
        rw [← hr]
        exact (hclear t (List.mem_cons_self t ts)).2
      refine ⟨fun _ => ?_, fun h => absurd hv (h t (List.mem_cons_self t ts))⟩
      rw [List.foldl_cons, hstep]
      exact foldl_fixed _ _ _
        (fun u hu => collideTile_of_clear d r u (hts u hu).1 (hts u hu).2)
    · have hstep := collideTile_of_not_veto d pos t hv
      constructor
      · rintro ⟨u, hu, huv⟩
        rw [List.foldl_cons, hstep]
        rcases List.mem_cons.1 hu with rfl | hu
        · exact absurd huv hv
        · exact ih'.1 ⟨u, hu, huv⟩
      · intro h
        rw [List.foldl_cons, hstep]
        exact ih'.2 (fun u hu => h u (List.mem_cons_of_mem t hu))

theorem foldl_collidePlayer_veto (d pos r : float64 × float64) (self : ℕ)
    (others : List (ℕ × player)) (hr : r = undoStep d pos)
    (hclear : ∀ o ∈ others, ¬ playerVetoes r self o) :
    ((∃ o ∈ others, playerVetoes pos self o) →
      others.foldl (collidePlayer d self) pos = r) ∧
    ((∀ o ∈ others, ¬ playerVetoes pos self o) →
      others.foldl (collidePlayer d self) pos = pos) := by
  induction others with
  | nil => exact ⟨fun h => by simp at h, fun _ => rfl⟩
  | cons o os ih =>
    have hos : ∀ u ∈ os, ¬ playerVetoes r self u :=
      fun u hu => hclear u (List.mem_cons_of_mem o hu)
    have ih' := ih hos
    by_cases hv : playerVetoes pos self o
    · refine ⟨fun _ => ?_, fun h => absurd hv (h o (List.mem_cons_self o os))⟩
      rw [List.foldl_cons, collidePlayer_of_veto d pos self o hv, ← hr]
      exact foldl_fixed _ _ _ (fun u hu => collidePlayer_of_not_veto d r self u (hos u hu))
    · have hstep := collidePlayer_of_not_veto d pos self o hv
      constructor
      · rintro ⟨u, hu, huv⟩
        rw [List.foldl_cons, hstep]
        rcases List.mem_cons.1 hu with rfl | hu
        · exact absurd huv hv
        · exact ih'.1 ⟨u, hu, huv⟩
      · intro h
        rw [List.foldl_cons, hstep]
        exact ih'.2 (fun u hu => h u (List.mem_cons_of_mem o hu))

/-- When at least one check vetoes the tentative position and the position one
subtraction of the step away is clear, the movement part of `player.work` ends on that
position. -/
theorem move_of_veto (p : player) (self : ℕ) (inp : input) (tiles : List tile)
    (players : List player)
    (hveto : (∃ t ∈ tiles, tileVetoes (p.tentative inp) t) ∨
      ∃ o ∈ players.enum, playerVetoes (p.tentative inp) self o)
    (hclear : clearAt (undoStep (stepOf inp) (p.tentative inp)) self tiles players) :
    p.move self inp tiles players = undoStep (stepOf inp) (p.tentative inp) := by
  have ht := foldl_collideTile_veto (stepOf inp) (p.tentative inp) _ tiles rfl hclear.1
  have hp := foldl_collidePlayer_veto (stepOf inp) (p.tentative inp) _ self players.enum rfl
    hclear.2
  unfold player.move
  simp only
  by_cases hv : ∃ t ∈ tiles, tileVetoes (p.tentative inp) t
  · have h1 := ht.1 hv
    unfold player.tentative at h1
    rw [h1]
    exact foldl_fixed _ _ _
      (fun o ho => collidePlayer_of_not_veto _ _ self o (hclear.2 o ho))
  · have h1 := ht.2 (fun t htm hc => hv ⟨t, htm, hc⟩)
    unfold player.tentative at h1
    rw [h1]
    exact hp.1 (hveto.resolve_left hv)

theorem interact_position (q : player) (tiles : List tile) (orders : List (List item)) :
    (q.interact tiles orders).p.x = q.x ∧ (q.interact tiles orders).p.y = q.y := by
  unfold player.interact
  split
  · exact ⟨rfl, rfl⟩
  · split <;> exact ⟨rfl, rfl⟩

/-- The position at the end of `player.work` is the one its movement part computes. -/
theorem work_position (p : player) (self : ℕ) (inp : input) (tiles : List tile)
    (players : List player) (orders : List (List item)) :
    ((p.work self inp tiles players orders).p.x, (p.work self inp tiles players orders).p.y) =
      p.move self inp tiles players := by
  unfold player.work
  simp only [apply_ite workResult.p, apply_ite player.x, apply_ite player.y, ite_self,
    interact_position]

/-- C11 fails as stated, in two ways. A player at (123, 40) stepping left in the station
layout lands inside the square footprint of the counter at (106, 26), beyond the guard
distance `8+math.Sqrt(8*8+8*8)` from its centre: no check is made and the player keeps
the new position. A player at (100, 100) stepping right towards two other players, both
nearer than 16 before and after the step, has the step subtracted twice and ends at
100 - speed. -/
theorem veto_not_exactly_once :
    inFootprint (player.tentative ⟨123, 40, none, false⟩ ⟨-1, 0, false, false⟩)
      (tile.counter ⟨⟨106, 26⟩, none⟩) ∧
    (player.work ⟨123, 40, none, false⟩ 0 ⟨-1, 0, false, false⟩ initialTiles
      [⟨123, 40, none, false⟩, ⟨150, 150, none, false⟩, ⟨100, 150, none, false⟩]
      initialOrders).p.x = fadd 123 (-speed) ∧
    fadd 123 (-speed) ≠ 123 ∧
    playerVetoes (player.tentative ⟨100, 100, none, false⟩ ⟨1, 0, false, false⟩) 0
      (1, ⟨100, 110, none, false⟩) ∧
    (player.work ⟨100, 100, none, false⟩ 0 ⟨1, 0, false, false⟩ initialTiles
      [⟨100, 100, none, false⟩, ⟨100, 110, none, false⟩, ⟨110, 100, none, false⟩]
      initialOrders).p.x = fsub 100 speed ∧
    fsub 100 speed ≠ 100 := by
  unfold inFootprint playerVetoes
  decide!

/-- C11 as amended: if the tentative position is vetoed by at least one check (a station
not skipped by the guard `dist > 8+math.Sqrt(8*8+8*8)` whose centre is within 16 of the
player's centre or whose footprint contains the position, or another player within 16),
and the position one subtraction of the step away from it is clear of every obstacle,
then the player ends the tick on that position, however many obstacles veto the
tentative position; that is the position before the tick whenever adding and
subtracting the step cancel exactly in float64. -/
theorem veto_restores_position (p : player) (self : ℕ) (inp : input) (tiles : List tile)
    (players : List player) (orders : List (List item))
    (hveto : (∃ t ∈ tiles, tileVetoes (p.tentative inp) t) ∨
      ∃ o ∈ players.enum, playerVetoes (p.tentative inp) self o)
    (hclear : clearAt (undoStep (stepOf inp) (p.tentative inp)) self tiles players) :
    ((p.work self inp tiles players orders).p.x, (p.work self inp tiles players orders).p.y) =
      undoStep (stepOf inp) (p.tentative inp) ∧
    (undoStep (stepOf inp) (p.tentative inp) = (p.x, p.y) →
      (p.work self inp tiles players orders).p.x = p.x ∧
      (p.work self inp tiles players orders).p.y = p.y) := by
  have h := (work_position p self inp tiles players orders).trans
    (move_of_veto p self inp tiles players hveto hclear)
  refine ⟨h, fun he => ?_⟩
  rw [he, Prod.mk.injEq] at h
  exact h

/-- C11 as amended, at a concrete input: the first player of the roster after 34 steps
straight up from (100, 100); the 35th step would enter the footprint of the counter at
(90, 26), and the player stays where it is. -/
theorem veto_restores_position_witness :
    tileVetoes
      (player.tentative ⟨100, 6098624495397537 / 140737488355328, none, false⟩
        ⟨0, -1, false, false⟩)
      (tile.counter ⟨⟨90, 26⟩, some item.dirtyPlate⟩) ∧
    clearAt
      (undoStep (stepOf ⟨0, -1, false, false⟩)
        (player.tentative ⟨100, 6098624495397537 / 140737488355328, none, false⟩
          ⟨0, -1, false, false⟩))
      0 initialTiles
      [⟨100, 6098624495397537 / 140737488355328, none, false⟩, ⟨150, 150, none, false⟩,
        ⟨100, 150, none, false⟩] ∧
    (player.work ⟨100, 6098624495397537 / 140737488355328, none, false⟩ 0
      ⟨0, -1, false, false⟩ initialTiles
      [⟨100, 6098624495397537 / 140737488355328, none, false⟩, ⟨150, 150, none, false⟩,
        ⟨100, 150, none, false⟩] initialOrders).p.x = 100 ∧
    (player.work ⟨100, 6098624495397537 / 140737488355328, none, false⟩ 0
      ⟨0, -1, false, false⟩ initialTiles
      [⟨100, 6098624495397537 / 140737488355328, none, false⟩, ⟨150, 150, none, false⟩,
        ⟨100, 150, none, false⟩] initialOrders).p.y =
      6098624495397537 / 140737488355328 :=
  ⟨by unfold tileVetoes tooClose inFootprint; decide!,
    by unfold clearAt tooClose inFootprint playerVetoes; decide!,
    (veto_restores_position ⟨100, 6098624495397537 / 140737488355328, none, false⟩ 0
      ⟨0, -1, false, false⟩ initialTiles
      [⟨100, 6098624495397537 / 140737488355328, none, false⟩, ⟨150, 150, none, false⟩,
        ⟨100, 150, none, false⟩] initialOrders
      (Or.inl ⟨tile.counter ⟨⟨90, 26⟩, some item.dirtyPlate⟩, by decide!,
        by unfold tileVetoes tooClose inFootprint; decide!⟩)
      (by unfold clearAt tooClose inFootprint playerVetoes; decide!)).2 (by decide!)⟩

/-! ## The orders of the ledger are listed in ascending order -/

theorem exit_drop_orders_mem (e : exit) (i : item) (orders : List (List item))
    (o : List item) (h : o ∈ (e.drop i orders).2.2) : o ∈ orders := by
  cases i with
  | cleanPlate c =>
    unfold exit.drop at h
    cases hf : orders.findIdx? (fun order => orderMatches order (plateContents c)) with
    | none =>
      simp only [hf] at h
      exact h
    | some oi =>
      simp only [hf] at h
      rcases List.mem_append.1 h with h | h
      · exact List.mem_of_mem_take h
      · exact List.mem_of_mem_drop h
  | _ => exact h

theorem tile_drop_orders_mem (t : tile) (i : item) (orders : List (List item))
    (o : List item) (h : o ∈ (t.drop i orders).orders) : o ∈ orders := by
  cases t with
  | exit e => exact exit_drop_orders_mem e i orders o h
  | _ => exact h

theorem interact_orders_mem (p : player) (tiles : List tile) (orders : List (List item))
    (o : List item) (h : o ∈ (p.interact tiles orders).orders) : o ∈ orders := by
  unfold player.interact at h
  split at h
  · exact h
  · split at h
    · exact h
    · exact tile_drop_orders_mem _ _ _ o h

theorem work_orders_mem (p : player) (self : ℕ) (inp : input) (tiles : List tile)
    (players : List player) (orders : List (List item)) (o : List item)
    (h : o ∈ (p.work self inp tiles players orders).orders) : o ∈ orders := by
  unfold player.work at h
  simp only [apply_ite workResult.orders, ite_self] at h
  split at h
  · exact interact_orders_mem _ tiles orders o h
  · exact h

theorem workPlayer_orders_mem (inputs : ℕ → input) (w : world) (k : ℕ) (o : List item)
    (h : o ∈ (update.workPlayer inputs w k).orders) : o ∈ w.orders := by
  unfold update.workPlayer at h
  split at h
  · exact h
  · exact work_orders_mem _ _ _ _ _ _ o h

theorem foldl_workPlayer_orders_mem (inputs : ℕ → input) (ks : List ℕ) (w : world)
    (o : List item) (h : o ∈ (ks.foldl (update.workPlayer inputs) w).orders) :
    o ∈ w.orders := by
  induction ks generalizing w with
  | nil => exact h
  | cons k rest ih => exact workPlayer_orders_mem inputs w k o (ih _ h)

/-- The replenishment step adds nothing but elements of `possibleOrders`. -/
theorem replenish_mem (orders : List (List item)) (draw1 draw2 : ℕ) (o : List item)
    (h : o ∈ replenish orders draw1 draw2) : o ∈ orders ∨ o ∈ possibleOrders := by
  unfold replenish at h
  split at h
  · split at h
    · split at h
      · rename_i newOrder hget
        rcases List.mem_append.1 h with h | h
        · exact Or.inl h
        · rw [List.mem_singleton] at h
          subst h
          exact Or.inr (List.getElem?_mem hget)
      · exact Or.inl h
    · exact Or.inl h
  · exact Or.inl h

theorem ledgerOp_apply_mem (w : world) (op : ledgerOp) (o : List item)
    (h : o ∈ (op.apply w).orders) : o ∈ w.orders ∨ o ∈ possibleOrders := by
  cases op with
  | update inputs draw1 draw2 =>
    simp only [ledgerOp.apply, CookingGame.update] at h
    rcases replenish_mem _ draw1 draw2 o h with h | h
    · exact Or.inl (foldl_workPlayer_orders_mem inputs _ w o h)
    · exact Or.inr h
  | exitDrop e i =>
    simp only [ledgerOp.apply] at h
    exact Or.inl (exit_drop_orders_mem e i w.orders o h)

/-- Every order of a reachable ledger is the initial order or an element of
`possibleOrders`. -/
theorem reachable_orders_mem (ops : List ledgerOp) (w : world)
    (hw : ∀ o ∈ w.orders, o ∈ initialOrders ++ possibleOrders) :
    ∀ o ∈ (ops.foldl ledgerOp.apply w).orders, o ∈ initialOrders ++ possibleOrders := by
  induction ops generalizing w with
  | nil => exact hw
  | cons op rest ih =>
    apply ih
    intro o ho
    rcases ledgerOp_apply_mem w op o ho with h | h
    · exact hw o h
    · exact List.mem_append_right _ h

theorem catalog_names_ascending :
    ∀ order ∈ initialOrders ++ possibleOrders, (order.map item.name).Sorted (· < ·) := by
  decide!

/-- A plate whose names are a rearrangement of the names of a pending order listed in
ascending order is accepted by `exit.drop`. -/
theorem exit_drop_of_sorted_order (e : exit) (contents : List (String × item))
    (orders : List (List item)) (order : List item) (hmem : order ∈ orders)
    (hs : (order.map item.name).Sorted (· < ·))
    (hp : ((contents.map Prod.snd).map item.name).Perm (order.map item.name)) :
    (e.drop (item.cleanPlate contents) orders).1 = true := by
  have hle : (order.map item.name).Sorted (· ≤ ·) := hs.imp (fun h => le_of_lt h)
  have hnames : order.map item.name = (plateContents contents).map item.name :=
    List.eq_of_perm_of_sorted (hp.symm.trans (plateContents_names_perm contents).symm) hle
      (plateContents_names_sorted contents)
  have hex : ∃ o, o ∈ orders ∧ orderMatches o (plateContents contents) = true :=
    ⟨order, hmem, (orderMatches_iff_names _ _).2 hnames⟩
  unfold exit.drop
  simp only [List.findIdx?_eq_some_of_exists hex]

/-- C21: the initial order and every element of `possibleOrders` list their ingredient
names in strictly ascending order, and these are the only values the replenishment step
of `update` appends; hence, after any sequence of `update` ticks and `exit.drop` calls
from the initial globals, every pending order lists its names in strictly ascending
order, and `exit.drop` accepts every clean plate that holds exactly the ingredients of a
pending order (whatever the order in which they were put on the plate), although only
the plate side of the comparison is sorted. -/
theorem reachable_orders_accepted (ops : List ledgerOp) :
    (∀ order ∈ initialOrders ++ possibleOrders, (order.map item.name).Sorted (· < ·)) ∧
    (∀ (orders : List (List item)) (draw1 draw2 : ℕ),
      ∀ order ∈ replenish orders draw1 draw2, order ∈ orders ∨ order ∈ possibleOrders) ∧
    (∀ order ∈ (ops.foldl ledgerOp.apply initialWorld).orders,
      (order.map item.name).Sorted (· < ·) ∧
      ∀ (e : exit) (contents : List (String × item)),
        ((contents.map Prod.snd).map item.name).Perm (order.map item.name) →
        (e.drop (item.cleanPlate contents)
          (ops.foldl ledgerOp.apply initialWorld).orders).1 = true) := by
  refine ⟨catalog_names_ascending, replenish_mem, ?_⟩
  intro order hmem
  have hcat := reachable_orders_mem ops initialWorld
    (fun o ho => List.mem_append_left _ ho) order hmem
  have hs := catalog_names_ascending order hcat
  exact ⟨hs, fun e contents hp => exit_drop_of_sorted_order e contents _ order hmem hs hp⟩

set_option maxRecDepth 1000000 in
/-- C21 at a concrete input: after one tick with idle controllers whose first draw is 0,
the ledger holds the initial order and `[choppedLettuce]`; a plate on which the tomato
was put before the lettuce is accepted for the initial order. -/
theorem reachable_orders_accepted_witness :
    ([ledgerOp.update (fun _ => ⟨0, 0, false, false⟩) 0 0].foldl ledgerOp.apply
      initialWorld).orders =
      [[item.choppedLettuce, item.choppedTomato], [item.choppedLettuce]] ∧
    (([("choppedTomato", item.choppedTomato), ("choppedLettuce", item.choppedLettuce)].map
      Prod.snd).map item.name).Perm
      ([item.choppedLettuce, item.choppedTomato].map item.name) ∧
    ((newExit 90 10).drop
      (item.cleanPlate
        [("choppedTomato", item.choppedTomato), ("choppedLettuce", item.choppedLettuce)])
      ([ledgerOp.update (fun _ => ⟨0, 0, false, false⟩) 0 0].foldl ledgerOp.apply
        initialWorld).orders).1 = true :=
  ⟨by decide!, by decide!,
    ((reachable_orders_accepted [ledgerOp.update (fun _ => ⟨0, 0, false, false⟩) 0 0]).2.2
      [item.choppedLettuce, item.choppedTomato] (by decide!)).2 (newExit 90 10)
      [("choppedTomato", item.choppedTomato), ("choppedLettuce", item.choppedLettuce)]
      (by decide!)⟩

end CookingGame
